import Mathlib

/-!
Verification of the dual-view parameter/logic synchronization engine of
`codebotair.py` (class `RobotControlApp` and `SimpleViewEditor`).

Texts are shallowly embedded as `List Char`.  The Python regular
expressions used by the program (`self\.<name>\s*=\s*([\d.]+)` and
`self\.<name>\s*=\s*"([^"]*)"`, always applied with `re.search` /
`re.sub(..., count=1)` which use leftmost-match semantics) are embedded
as deterministic character-level matchers; this is faithful because the
character classes involved (`\s`, `=`, `[\d.]`, `"`, `[^"]`) are
pairwise disjoint at every juncture of the patterns, so the Python
backtracking engine behaves deterministically on them.

Numeric spinbox values (Qt `QDoubleSpinBox` with `decimals=2` resp. `1`)
are embedded as natural numbers counting hundredths resp. tenths of the
displayed value; Python's `f'{v:.2f}'` formatting of such a value is
exactly the decimal rendering embedded below.
-/

namespace Codebotair

/-- Python `\s` on the ASCII range: space, tab, newline, CR, VT, FF. -/
def isSpaceChar (c : Char) : Bool :=
  c = ' ' || c = '\t' || c = '\n' || c = '\r' || c = '\x0b' || c = '\x0c'

/-- Python character class `[\d.]`. -/
def isDigitDot (c : Char) : Bool :=
  c.isDigit || c = '.'

/-- Generic leftmost search: try the position matcher `f` at every
position of the text from the left and return the skipped prefix
together with the first success.  This is `re.search` semantics for the
position matchers below. -/
def searchWith {α : Type} (f : List Char → Option α) : List Char → Option (List Char × α)
  | [] => (f []).map (fun a => ([], a))
  | c :: cs =>
    match f (c :: cs) with
    | some a => some ([], a)
    | none => (searchWith f cs).map (fun p => (c :: p.1, p.2))

/-- Position matcher for the Python regex `<name>\s*=\s*([\d.]+)` at the
head of the text (`name` stands for the literal text `self.<param>`).
On success returns `(group-1 prefix, value characters, rest)`. -/
def tryMatchAssign (name : List Char) (cs : List Char) : Option (List Char × List Char × List Char) :=
  if name.isPrefixOf cs then
    let r0 := cs.drop name.length
    let sp1 := r0.takeWhile isSpaceChar
    match r0.dropWhile isSpaceChar with
    | '=' :: r2 =>
      let sp2 := r2.takeWhile isSpaceChar
      let r3 := r2.dropWhile isSpaceChar
      let v := r3.takeWhile isDigitDot
      if v = [] then none
      else some (name ++ sp1 ++ '=' :: sp2, v, r3.drop v.length)
    | _ => none
  else none

/-- Position matcher for the Python regex `<name>\s*=\s*"([^"]*)"` used
by the substitution paths.  On success returns `(group-1 prefix
including the opening quote, quoted content, rest starting with the
closing quote)`. -/
def tryMatchQuoted (name : List Char) (cs : List Char) : Option (List Char × List Char × List Char) :=
  if name.isPrefixOf cs then
    let r0 := cs.drop name.length
    let sp1 := r0.takeWhile isSpaceChar
    match r0.dropWhile isSpaceChar with
    | '=' :: r2 =>
      let sp2 := r2.takeWhile isSpaceChar
      match r2.dropWhile isSpaceChar with
      | '"' :: r3 =>
        let v := r3.takeWhile (fun c => c ≠ '"')
        match r3.drop v.length with
        | '"' :: _ => some (name ++ sp1 ++ '=' :: sp2 ++ ['"'], v, r3.drop v.length)
        | _ => none
      | _ => none
    | _ => none
  else none

/-- Position matcher for the extraction regex
`self\.colour_detection\s*=\s*"([^"]+)"` (note the nonempty `[^"]+`). -/
def tryMatchQuotedNE (name : List Char) (cs : List Char) : Option (List Char × List Char × List Char) :=
  match tryMatchQuoted name cs with
  | some (pfx, v, rest) => if v = [] then none else some (pfx, v, rest)
  | none => none

/-- One `re.sub(pattern, replacement, text, count=1)` entry of the
`replacements` tables in `_sync_simple_view_from_spinboxes`,
`_sync_full_view_from_spinboxes` and `_write_params_to_movement_py`:
either a numeric parameter assignment or the quoted colour assignment,
with the replacement value to splice in place of group 1's value. -/
inductive SubSpec
  | num (name : List Char) (newVal : List Char)
  | quoted (name : List Char) (newVal : List Char)

/-- The replacement text of a `SubSpec`. -/
def SubSpec.newVal : SubSpec → List Char
  | .num _ v => v
  | .quoted _ v => v

/-- Leftmost match of a `SubSpec`'s pattern in a text, normalised to
`(text before the replaced span, replaced span, text after it)`.
For a numeric entry the replaced span is the matched `[\d.]+` value;
for the quoted entry it is the `[^"]*` content between the quotes. -/
def SubSpec.search : SubSpec → List Char → Option (List Char × List Char × List Char)
  | .num name _, cs =>
    (searchWith (tryMatchAssign name) cs).map (fun p => (p.1 ++ p.2.1, p.2.2.1, p.2.2.2))
  | .quoted name _, cs =>
    (searchWith (tryMatchQuoted name) cs).map (fun p => (p.1 ++ p.2.1, p.2.2.1, p.2.2.2))

/-- `re.sub(pattern, r'\g<1><newVal>', text, count=1)`: replace the
value span of the leftmost match, keep everything else. -/
def applySub (s : SubSpec) (cs : List Char) : List Char :=
  match s.search cs with
  | none => cs
  | some (b, _, r) => b ++ s.newVal ++ r

/-- First (leftmost) occurrence of `m` in `cs`, as Python `str.find`:
returns the text before and after the occurrence. -/
def findSub (m : List Char) (cs : List Char) : Option (List Char × List Char) :=
  searchWith (fun t => if m.isPrefixOf t then some (t.drop m.length) else none) cs

/-- Python `needle in haystack` (substring test). -/
def containsSub (m cs : List Char) : Bool :=
  (List.range (cs.length + 1)).any (fun p => m.isPrefixOf (cs.drop p))

/-! ### Decimal formatting and parsing -/

/-- Decimal digit characters of a positive natural number, big-endian
(`fuel`-structured so that it reduces by `rfl`; `fuel ≥ n` suffices). -/
def natCharsAux : Nat → Nat → List Char
  | 0, _ => []
  | fuel + 1, n =>
    if n = 0 then [] else natCharsAux fuel (n / 10) ++ [Nat.digitChar (n % 10)]

/-- Decimal digit characters of a natural number (`repr`). -/
def natChars (n : Nat) : List Char :=
  if n = 0 then ['0'] else natCharsAux n n

/-- Python `f'{v:.2f}'` where the spinbox value `v` is `n` hundredths:
integer part, a dot, then exactly two fractional digits. -/
def formatFixed2 (n : Nat) : List Char :=
  natChars (n / 100) ++ '.' :: Nat.digitChar (n % 100 / 10) :: [Nat.digitChar (n % 10)]

/-- Python `f'{v:.1f}'` where the spinbox value `v` is `n` tenths. -/
def formatFixed1 (n : Nat) : List Char :=
  natChars (n / 10) ++ '.' :: [Nat.digitChar (n % 10)]

/-- Numeric value of a big-endian list of decimal digit characters. -/
def digitsToNat (ds : List Char) : Nat :=
  ds.foldl (fun a c => a * 10 + (c.toNat - 48)) 0

/-- Python `float()` applied to a nonempty string of characters drawn
from `[\d.]` (the only strings the extraction regex can capture): it
succeeds iff the string has at most one dot and at least one digit, and
we record the result exactly as `(mantissa, number of fractional
digits)`, i.e. the rational `mantissa / 10 ^ k`.  `float('1.2.3')` and
`float('.')` raise `ValueError`, embedded as `none`. -/
def parseFloatDD (cs : List Char) : Option (Nat × Nat) :=
  let intPart := cs.takeWhile Char.isDigit
  match cs.drop intPart.length with
  | [] => if intPart = [] then none else some (digitsToNat intPart, 0)
  | '.' :: frac =>
    if frac.all Char.isDigit ∧ (intPart ≠ [] ∨ frac ≠ []) then
      some (digitsToNat (intPart ++ frac), frac.length)
    else none
  | _ => none

/-- `QDoubleSpinBox.setValue` for a box with `decimals = d` and range
`[lo, hi]` (both in units of `10 ^ (-d)`): the incoming value
`mant / 10 ^ k` is rounded to `d` decimals (half away from zero) and
clamped into the range; the result is in units of `10 ^ (-d)`. -/
def spinSetValue (lo hi d : Nat) (mant k : Nat) : Nat :=
  let r := if k ≤ d then mant * 10 ^ (d - k)
           else (mant * 10 ^ d + 10 ^ k / 2) / 10 ^ k
  min hi (max lo r)

/-! ### Parameters and the code generator -/

/-- The colour combo box entries (`addItems(["Red", "Blue", "Yellow",
"Green"])`). -/
inductive Colour
  | Red | Blue | Yellow | Green
deriving DecidableEq

/-- `currentText()` of the colour combo box. -/
def Colour.text : Colour → List Char
  | .Red => "Red".data
  | .Blue => "Blue".data
  | .Yellow => "Yellow".data
  | .Green => "Green".data

/-- The seven synchronized parameters.  Numeric fields are in spinbox
display units: hundredths for the four `decimals=2` boxes, tenths for
the two `decimals=1` boxes. -/
structure Params where
  forward_speed : Nat
  backward_speed : Nat
  turn_speed : Nat
  obstacle_distance : Nat
  turn_cw_deg : Nat
  turn_acw_deg : Nat
  colour_detection : Colour
deriving DecidableEq

/-- The spinbox ranges set in the Robot Control tab:
`forward_speed, backward_speed ∈ [0.01, 2.0]`, `turn_speed ∈ [0.1, 3.0]`,
`obstacle_distance ∈ [0.10, 2.0]` (hundredths), and
`turn_cw/turn_acw ∈ [0, 360]` degrees (tenths). -/
def Params.inRange (P : Params) : Prop :=
  1 ≤ P.forward_speed ∧ P.forward_speed ≤ 200 ∧
  1 ≤ P.backward_speed ∧ P.backward_speed ≤ 200 ∧
  10 ≤ P.turn_speed ∧ P.turn_speed ≤ 300 ∧
  10 ≤ P.obstacle_distance ∧ P.obstacle_distance ≤ 200 ∧
  P.turn_cw_deg ≤ 3600 ∧ P.turn_acw_deg ≤ 3600

instance (P : Params) : Decidable P.inRange := by
  unfold Params.inRange; infer_instance

/-- Literal segments of `_generate_simple_code`'s f-string, split at the
seven interpolated parameter values. -/
def hdrA0 : String :=
  "from codebotair import Robot\n\nclass Movement(Robot):\n    def __init__(self):\n        super().__init__()\n        # === Editable Parameters ===\n        self.forward_speed = "

def hdrA1 : String := "       # m/s  ← edit\n        self.backward_speed = "

def hdrA2 : String := "      # m/s  ← edit\n        self.turn_speed = "

def hdrA3 : String := "          # rad/s  ← edit\n        self.obstacle_distance = "

def hdrA4 : String := "   # metres  ← edit\n        self.turn_cw_deg = "

def hdrA5 : String := "         # degrees CW  ← edit\n        self.turn_acw_deg = "

def hdrA6 : String := "        # degrees ACW  ← edit\n        self.colour_detection = \""

def hdrA7 : String :=
  "\"   # Red|Blue|Yellow|Green  ← edit\n\n    # vvv Drag and drop functions below vvv\n\n    def control_loop(self):\n        # === Movement Logic ===\n        if self.obstacle_in_front():\n            self.stop()                       # stop movement\n            self.turn_cw(self.turn_cw_deg)    # turn clockwise  ← edit\n        else:\n            self.move(self.forward_speed)     # drive forward  ← edit\n"

/-- `RobotControlApp._generate_simple_code`: the default Codebot Air
code rendered from the current parameter values. -/
def generateSimpleCode (P : Params) : List Char :=
  hdrA0.data ++ formatFixed2 P.forward_speed ++
  hdrA1.data ++ formatFixed2 P.backward_speed ++
  hdrA2.data ++ formatFixed2 P.turn_speed ++
  hdrA3.data ++ formatFixed2 P.obstacle_distance ++
  hdrA4.data ++ formatFixed1 P.turn_cw_deg ++
  hdrA5.data ++ formatFixed1 P.turn_acw_deg ++
  hdrA6.data ++ P.colour_detection.text ++
  hdrA7.data

/-- The regex literal `self\.<param>` for each parameter name. -/
def nameFwd : List Char := "self.forward_speed".data
def nameBwd : List Char := "self.backward_speed".data
def nameTurn : List Char := "self.turn_speed".data
def nameObs : List Char := "self.obstacle_distance".data
def nameCw : List Char := "self.turn_cw_deg".data
def nameAcw : List Char := "self.turn_acw_deg".data
def nameColour : List Char := "self.colour_detection".data

/-- The `replacements` table shared (textually duplicated) by
`_sync_simple_view_from_spinboxes`, `_sync_full_view_from_spinboxes`
and `_write_params_to_movement_py`, in source order. -/
def subSpecs (P : Params) : List SubSpec :=
  [ .num nameFwd (formatFixed2 P.forward_speed),
    .num nameBwd (formatFixed2 P.backward_speed),
    .num nameTurn (formatFixed2 P.turn_speed),
    .num nameObs (formatFixed2 P.obstacle_distance),
    .num nameCw (formatFixed1 P.turn_cw_deg),
    .num nameAcw (formatFixed1 P.turn_acw_deg),
    .quoted nameColour P.colour_detection.text ]

/-- The in-place substitution loop (`for pattern, repl in replacements:
code = re.sub(pattern, repl, code, count=1)`), the body of
`_write_params_to_movement_py` and of the editor-side syncs. -/
def writeParams (P : Params) (code : List Char) : List Char :=
  (subSpecs P).foldl (fun c s => applySub s c) code

/-- Decidable check that each substitution of the list, run in order on
the evolving text, either does not match or matches entirely within the
first `hLen` characters (the header part) of the text.  This is the
canonical-header discipline: every parameter's first pattern match lies
before the logic markers. -/
def subsWithinHeader : List SubSpec → Nat → List Char → Bool
  | [], _, _ => true
  | s :: ss, hLen, code =>
    match s.search code with
    | none => subsWithinHeader ss hLen code
    | some (b, old, _) =>
      decide (b.length + old.length ≤ hLen) &&
      subsWithinHeader ss (hLen - old.length + s.newVal.length) (applySub s code)

/-- The replacement text of a substitution cannot complete an
occurrence of the marker text `m`: it is nonempty, its first character
does not occur in `m`, and none of its characters equals `m`'s first
character.  (All replacement texts of `subSpecs` — fixed-decimal
numbers and colour names — satisfy this for both markers.) -/
def NewSafe (m : List Char) (s : SubSpec) : Prop :=
  s.newVal ≠ [] ∧ (∀ ch ∈ m, ch ≠ s.newVal.headD 'x') ∧
    ∀ ch ∈ s.newVal, ch ≠ m.headD 'x'

/-! ### Markers, logic extraction and the splice -/

/-- `marker_start` in `_write_simple_logic_to_movement_py` (note the
trailing newline). -/
def msChars : List Char := "        # user control_loop logic below\n".data

/-- `marker_end` in `_write_simple_logic_to_movement_py`. -/
def meChars : List Char := "        # end user control_loop logic".data

/-- The Simple View structural separator searched with `in`. -/
def sepChars : List Char := "# === Movement Logic ===".data

/-- The insertion-boundary sentinel of `SimpleViewEditor`. -/
def sentinelChars : List Char := "def control_loop".data

/-- Python `text.split('\n')` (always at least one part). -/
def splitLines : List Char → List (List Char)
  | [] => [[]]
  | c :: r =>
    if c = '\n' then [] :: splitLines r
    else
      match splitLines r with
      | [] => [[c]]
      | l :: ls => (c :: l) :: ls

/-- Python `'\n'.join(lines)`. -/
def joinLines : List (List Char) → List Char
  | [] => []
  | [l] => l
  | l :: ls => l ++ '\n' :: joinLines ls

/-- A line `l` with `not l.strip()` true, i.e. only whitespace. -/
def isBlankLine (l : List Char) : Bool := l.all isSpaceChar

/-- The `while logic_lines and not logic_lines[-1].strip():
logic_lines.pop()` loop. -/
def dropTrailingBlank (ls : List (List Char)) : List (List Char) :=
  (ls.reverse.dropWhile isBlankLine).reverse

/-- `RobotControlApp._extract_simple_view_logic`: everything after the
first line containing the separator, with trailing blank lines
stripped; `none` when the separator is absent or nothing remains. -/
def extractSimpleViewLogic (text : List Char) : Option (List Char) :=
  let lines := splitLines text
  match lines.findIdx? (fun l => containsSub sepChars l) with
  | none => none
  | some i =>
    let logic := dropTrailingBlank (lines.drop (i + 1))
    if logic = [] then none else some (joinLines logic)

/-- The splice of `_write_simple_logic_to_movement_py` once `logic` is
known:
`code[:code.find(ms) + len(ms)] + logic + '\n' + code[code.find(me):]`,
with the artifact left unchanged when either marker is missing. -/
def writeSimpleLogicCode (logic code : List Char) : List Char :=
  match findSub msChars code with
  | none => code
  | some (b, _) =>
    match findSub meChars code with
    | none => code
    | some (_, r2) => b ++ msChars ++ logic ++ '\n' :: (meChars ++ r2)

/-- `RobotControlApp._write_simple_logic_to_movement_py` on an existing
artifact: extract the Simple View logic and splice it between the
markers; a `None` extraction leaves the artifact untouched. -/
def writeSimpleLogicFromEditor (editorText code : List Char) : List Char :=
  match extractSimpleViewLogic editorText with
  | none => code
  | some logic => writeSimpleLogicCode logic code

/-- The artifact-level reconciliation: parameter rewrite followed by
the logic splice, in the order used by `_sync_simple_view_to_full_view`
and `_autosave`. -/
def reconcileDisk (P : Params) (editorText code : List Char) : List Char :=
  writeSimpleLogicFromEditor editorText (writeParams P code)

/-! ### Loading the Simple View from the artifact -/

/-- Position matcher for the load regex
`        # user control_loop logic below\n(.*?)        # end user control_loop logic`
with `re.DOTALL`: the start-marker literal must match here, and the lazy
group extends to the first end-marker occurrence after it. -/
def tryMarkers (cs : List Char) : Option (List Char) :=
  if msChars.isPrefixOf cs then
    (findSub meChars (cs.drop msChars.length)).map Prod.fst
  else none

/-- Python `s.rstrip('\n')`. -/
def rstripNl (cs : List Char) : List Char :=
  (cs.reverse.dropWhile (fun c => c = '\n')).reverse

/-- `re.search` of the marker pair in `_load_simple_view_from_movement_py`,
returning `m.group(1).rstrip('\n')`. -/
def extractSavedLogic (code : List Char) : Option (List Char) :=
  (searchWith tryMarkers code).map (fun p => rstripNl p.2)

/-- The rebuild step of `_load_simple_view_from_movement_py`: lines of
the freshly generated code up to and including the separator line,
then the saved logic, then a final newline. -/
def loadRebuild (P : Params) (saved : List Char) : List Char :=
  let base := generateSimpleCode P
  let lines := splitLines base
  match lines.findIdx? (fun l => containsSub sepChars l) with
  | none => base
  | some i => joinLines (lines.take (i + 1) ++ [saved]) ++ ['\n']

/-- `_load_simple_view_from_movement_py` on an existing artifact:
markers missing falls back to the full default render, otherwise the
saved logic is spliced under the fresh header. -/
def loadSimpleViewText (P : Params) (code : List Char) : List Char :=
  match extractSavedLogic code with
  | none => generateSimpleCode P
  | some saved => loadRebuild P saved

/-! ### The Simple View editor's drop guard -/

/-- `SimpleViewEditor._logic_start_line`: index of the first line
containing `def control_loop`, if any. -/
def logicStartLine (text : List Char) : Option Nat :=
  (splitLines text).findIdx? (fun l => containsSub sentinelChars l)

/-- `SimpleViewEditor.dropEvent`'s gating, as the predicate "the drop at
line `t` is committed" (the event is ignored exactly when a sentinel
line `b` exists and `t ≤ b`). -/
def isInsertionAllowed (text : List Char) (t : Nat) : Bool :=
  match logicStartLine text with
  | none => true
  | some b => decide (b < t)

/-! ### The extraction handler `_on_simple_code_changed` -/

/-- One numeric step of `_on_simple_code_changed`:
`m = re.search(...); if m: spinbox.setValue(float(m.group(1)))`.
`float` raising `ValueError` is `Except.error` (the exception
propagates out of the handler). -/
def extractNum (name : List Char) (lo hi d : Nat) (text : List Char) (cur : Nat) :
    Except Unit Nat :=
  match searchWith (tryMatchAssign name) text with
  | none => .ok cur
  | some (_, _, v, _) =>
    match parseFloatDD v with
    | none => .error ()
    | some (m, k) => .ok (spinSetValue lo hi d m k)

/-- The colour step of `_on_simple_code_changed`: a match is accepted
only when its text is one of the four combo entries. -/
def extractColour (text : List Char) (cur : Colour) : Colour :=
  match searchWith (tryMatchQuotedNE nameColour) text with
  | none => cur
  | some (_, _, v, _) =>
    if v = Colour.Red.text then .Red
    else if v = Colour.Blue.text then .Blue
    else if v = Colour.Yellow.text then .Yellow
    else if v = Colour.Green.text then .Green
    else cur

/-- The body of `_on_simple_code_changed` (inside the `try`): the seven
extraction steps run in source order; a `ValueError` aborts the
remaining steps.  Returns the parameters as updated so far and whether
an exception escaped the body. -/
def onSimpleCodeChangedCore (text : List Char) (Q : Params) : Params × Bool :=
  match extractNum nameFwd 1 200 2 text Q.forward_speed with
  | .error _ => (Q, true)
  | .ok a =>
    let Q := { Q with forward_speed := a }
    match extractNum nameBwd 1 200 2 text Q.backward_speed with
    | .error _ => (Q, true)
    | .ok a =>
      let Q := { Q with backward_speed := a }
      match extractNum nameTurn 10 300 2 text Q.turn_speed with
      | .error _ => (Q, true)
      | .ok a =>
        let Q := { Q with turn_speed := a }
        match extractNum nameObs 10 200 2 text Q.obstacle_distance with
        | .error _ => (Q, true)
        | .ok a =>
          let Q := { Q with obstacle_distance := a }
          match extractNum nameCw 0 3600 1 text Q.turn_cw_deg with
          | .error _ => (Q, true)
          | .ok a =>
            let Q := { Q with turn_cw_deg := a }
            match extractNum nameAcw 0 3600 1 text Q.turn_acw_deg with
            | .error _ => (Q, true)
            | .ok a =>
              let Q := { Q with turn_acw_deg := a }
              ({ Q with colour_detection := extractColour text Q.colour_detection }, false)

/-! ### Application state and the synchronization orchestration -/

/-- The synchronization-relevant state of `RobotControlApp`:
the spinbox parameters, the Simple View editor text, the persisted
`movement.py` contents (`none` when the file is missing), the Full View
editor text, whether `movement_pkg/movement.py` is the file open in the
Full View, the editor stack index (0 = Simple, 1 = Full) and the
`_syncing` reentrancy flag. -/
structure AppState where
  params : Params
  simpleText : List Char
  artifact : Option (List Char)
  fullText : List Char
  fullViewIsMovement : Bool
  viewIdx : Nat
  syncing : Bool

/-- Python `not code.strip()`. -/
def isBlankText (cs : List Char) : Bool := cs.all isSpaceChar

/-- `_on_simple_code_changed` as a state transition; the `Bool` records
whether an exception escaped (the `finally` clause resets `_syncing`
either way). -/
def onSimpleCodeChanged (st : AppState) : AppState × Bool :=
  if st.syncing then (st, false)
  else
    let (p, err) := onSimpleCodeChangedCore st.simpleText st.params
    ({ st with params := p, syncing := false }, err)

/-- `_sync_simple_view_from_spinboxes` as a state transition.  The
`setPlainText` calls re-enter `_on_simple_code_changed`, which returns
immediately because `_syncing` is set; its body raises nothing. -/
def syncSimpleViewFromSpinboxes (st : AppState) : AppState × Bool :=
  if st.syncing then (st, false)
  else if isBlankText st.simpleText then
    ({ st with simpleText := generateSimpleCode st.params, syncing := false }, false)
  else
    ({ st with simpleText := writeParams st.params st.simpleText, syncing := false }, false)

/-- `_load_simple_view_from_movement_py` as a state transition (its
body raises nothing; every `setPlainText` is wrapped in
`_syncing = True / finally: _syncing = False`). -/
def loadSimpleViewOp (st : AppState) : AppState × Bool :=
  match st.artifact with
  | none =>
    if isBlankText st.simpleText then
      ({ st with simpleText := generateSimpleCode st.params, syncing := false }, false)
    else (st, false)
  | some code =>
    ({ st with simpleText := loadSimpleViewText st.params code, syncing := false }, false)

/-- `_sync_full_view_from_spinboxes`: in-place substitution on the Full
View editor text (no-op on blank text). -/
def syncFullFromSpin (P : Params) (t : List Char) : List Char :=
  if isBlankText t then t else writeParams P t

/-- `_sync_simple_view_to_full_view`: persist params and logic to the
artifact, then reload the Full View editor from it when `movement.py`
is the open file. -/
def syncSimpleToFull (st : AppState) : AppState :=
  match st.artifact with
  | none => st
  | some code =>
    let code' := reconcileDisk st.params st.simpleText code
    { st with
      artifact := some code',
      fullText := if st.fullViewIsMovement then code' else st.fullText }

/-- `_show_full_view` (ignoring pure widget actions): sync the Simple
View out when it is current, switch the stack, then apply the spinbox
values to the Full View editor when `movement.py` is open. -/
def showFullView (st : AppState) : AppState :=
  let st1 := if st.viewIdx = 0 then syncSimpleToFull st else st
  let st2 := { st1 with viewIdx := 1 }
  if st2.fullViewIsMovement then
    { st2 with fullText := syncFullFromSpin st2.params st2.fullText }
  else st2

/-- `_save_full_view_file`: write the Full View editor verbatim to the
open file (modelled only for `movement.py`; other files do not touch
the artifact). -/
def saveFullViewFile (st : AppState) : AppState :=
  if st.fullViewIsMovement then { st with artifact := some st.fullText } else st

/-- `_show_simple_view`: save the Full View file when it is current,
switch the stack, then load the Simple View from the artifact. -/
def showSimpleView (st : AppState) : AppState :=
  let st1 := if st.viewIdx = 1 then saveFullViewFile st else st
  (loadSimpleViewOp { st1 with viewIdx := 0 }).1

/-! ## General lemmas about the search and match machinery -/

theorem dropWhile_eq_drop_takeWhile (p : Char → Bool) (l : List Char) :
    l.dropWhile p = l.drop (l.takeWhile p).length := by
  induction l with
  | nil => rfl
  | cons c cs ih =>
    by_cases h : p c
    · simp [List.dropWhile_cons, List.takeWhile_cons, h, ih]
    · simp [List.dropWhile_cons, List.takeWhile_cons, h]

theorem all_takeWhile (p : Char → Bool) (l : List Char) : (l.takeWhile p).all p = true := by
  induction l with
  | nil => rfl
  | cons c cs ih =>
    by_cases h : p c
    · simp [List.takeWhile_cons, h, ih]
    · simp [List.takeWhile_cons, h]

/-- Inversion for a successful numeric-assignment match: the input
splits as prefix, value, rest, and the value is a nonempty `[\d.]` run. -/
theorem tryMatchAssign_eq_some {name cs pfx v rest : List Char}
    (h : tryMatchAssign name cs = some (pfx, v, rest)) :
    cs = pfx ++ v ++ rest ∧ v ≠ [] ∧ v.all isDigitDot = true := by
  unfold tryMatchAssign at h
  split at h
  case isFalse => exact absurd h (by simp)
  case isTrue hpre =>
    dsimp only at h
    split at h
    case h_2 => exact absurd h (by simp)
    case h_1 r2 heq =>
      split at h
      case isTrue => exact absurd h (by simp)
      case isFalse hne =>
        injection h with h1
        injection h1 with hpfx h2
        injection h2 with hv hrest
        subst hpfx hv hrest
        refine ⟨?_, hne, all_takeWhile _ _⟩
        have hcs : name ++ cs.drop name.length = cs :=
          List.prefix_iff_eq_append.mp (List.isPrefixOf_iff_prefix.mp hpre)
        set r0 := cs.drop name.length with hr0
        have h1 : r0.takeWhile isSpaceChar ++ ('=' :: r2) = r0 := by
          rw [← heq]; exact List.takeWhile_append_dropWhile ..
        have h2 : r2.takeWhile isSpaceChar ++ r2.dropWhile isSpaceChar = r2 :=
          List.takeWhile_append_dropWhile ..
        set r3 := r2.dropWhile isSpaceChar with hr3
        have h3 : r3.takeWhile isDigitDot ++ r3.drop (r3.takeWhile isDigitDot).length = r3 := by
          rw [← dropWhile_eq_drop_takeWhile]; exact List.takeWhile_append_dropWhile ..
        conv_lhs => rw [← hcs, ← h1, ← h2, ← h3]
        simp

/-- Inversion for a successful quoted-assignment match: the input
splits as prefix (ending in the opening quote), content, rest (starting
with the closing quote). -/
theorem tryMatchQuoted_eq_some {name cs pfx v rest : List Char}
    (h : tryMatchQuoted name cs = some (pfx, v, rest)) :
    cs = pfx ++ v ++ rest ∧ ∃ r4, rest = '"' :: r4 := by
  unfold tryMatchQuoted at h
  split at h
  case isFalse => exact absurd h (by simp)
  case isTrue hpre =>
    dsimp only at h
    split at h
    case h_2 => exact absurd h (by simp)
    case h_1 r2 heq =>
      split at h
      case h_2 => exact absurd h (by simp)
      case h_1 r3 heq3 =>
        split at h
        case h_2 => exact absurd h (by simp)
        case h_1 r4 heq4 =>
          injection h with h1
          injection h1 with hpfx h2
          injection h2 with hv hrest
          subst hpfx hv hrest
          refine ⟨?_, r4, heq4⟩
          have hcs : name ++ cs.drop name.length = cs :=
            List.prefix_iff_eq_append.mp (List.isPrefixOf_iff_prefix.mp hpre)
          set r0 := cs.drop name.length with hr0
          have h1 : r0.takeWhile isSpaceChar ++ ('=' :: r2) = r0 := by
            rw [← heq]; exact List.takeWhile_append_dropWhile ..
          have h2 : r2.takeWhile isSpaceChar ++ ('"' :: r3) = r2 := by
            rw [← heq3]; exact List.takeWhile_append_dropWhile ..
          have h3 : r3.takeWhile (fun c => c ≠ '"') ++
              r3.drop (r3.takeWhile (fun c => c ≠ '"')).length = r3 := by
            rw [← dropWhile_eq_drop_takeWhile]; exact List.takeWhile_append_dropWhile ..
          conv_lhs => rw [← hcs, ← h1, ← h2, ← h3]
          simp

/-- A successful leftmost search splits the text at the first matching
position. -/
theorem searchWith_eq_some {α : Type} (f : List Char → Option α) :
    ∀ {cs b : List Char} {a : α}, searchWith f cs = some (b, a) →
      ∃ rest, cs = b ++ rest ∧ f rest = some a := by
  intro cs
  induction cs with
  | nil =>
    intro b a h
    unfold searchWith at h
    cases hf : f [] with
    | none => rw [hf] at h; exact absurd h (by simp)
    | some a0 =>
      rw [hf] at h
      simp at h
      exact ⟨[], by simp [h.1], by rw [hf, h.2]⟩
  | cons c cs ih =>
    intro b a h
    unfold searchWith at h
    cases hf : f (c :: cs) with
    | some a0 =>
      rw [hf] at h
      simp at h
      exact ⟨c :: cs, by simp [h.1], by rw [hf, h.2]⟩
    | none =>
      rw [hf] at h
      cases hs : searchWith f cs with
      | none => rw [hs] at h; exact absurd h (by simp)
      | some p =>
        rw [hs] at h
        simp at h
        obtain ⟨rest, hcs, hrest⟩ := ih hs
        exact ⟨rest, by rw [← h.1, hcs]; simp, by rw [hrest, h.2]⟩

/-- A substitution's leftmost match decomposes the text, and the
substitution rewrites exactly the matched value span. -/
theorem search_decomp (s : SubSpec) (t b v r : List Char)
    (h : s.search t = some (b, v, r)) :
    t = b ++ v ++ r ∧ applySub s t = b ++ s.newVal ++ r := by
  refine ⟨?_, by simp [applySub, h]⟩
  cases s with
  | num name nv =>
    simp only [SubSpec.search] at h
    cases hs : searchWith (tryMatchAssign name) t with
    | none => rw [hs] at h; exact absurd h (by simp)
    | some p =>
      rw [hs] at h
      obtain ⟨b0, pfx0, v0, r0⟩ := p
      simp only [Option.map_some'] at h
      injection h with h1
      injection h1 with hb h2
      injection h2 with hv hr
      obtain ⟨rest, hsplit, hmatch⟩ := searchWith_eq_some _ hs
      obtain ⟨hrest, -, -⟩ := tryMatchAssign_eq_some hmatch
      subst hb hv hr
      rw [hsplit, hrest]
      simp
  | quoted name nv =>
    simp only [SubSpec.search] at h
    cases hs : searchWith (tryMatchQuoted name) t with
    | none => rw [hs] at h; exact absurd h (by simp)
    | some p =>
      rw [hs] at h
      obtain ⟨b0, pfx0, v0, r0⟩ := p
      simp only [Option.map_some'] at h
      injection h with h1
      injection h1 with hb h2
      injection h2 with hv hr
      obtain ⟨rest, hsplit, hmatch⟩ := searchWith_eq_some _ hs
      obtain ⟨hrest, -⟩ := tryMatchQuoted_eq_some hmatch
      subst hb hv hr
      rw [hsplit, hrest]
      simp

/-- A search on a text where the matcher fails at every position
returns nothing. -/
theorem searchWith_eq_none {α : Type} (f : List Char → Option α) :
    ∀ {cs : List Char}, (∀ p, f (cs.drop p) = none) → searchWith f cs = none := by
  intro cs
  induction cs with
  | nil =>
    intro h
    have h0 := h 0
    rw [List.drop_zero] at h0
    unfold searchWith
    rw [h0]
    rfl
  | cons c cs ih =>
    intro h
    have h0 := h 0
    rw [List.drop_zero] at h0
    unfold searchWith
    rw [h0]
    simp only
    rw [ih (fun p => h (p + 1))]
    rfl

/-- A failed substring test refutes a prefix test at every offset. -/
theorem containsSub_false_at {m cs : List Char} (h : containsSub m cs = false) (p : Nat) :
    m.isPrefixOf (cs.drop p) = false := by
  by_cases hp : p ≤ cs.length
  · exact Bool.eq_false_iff.mpr (List.any_eq_false.mp h p (by simp [List.mem_range]; omega))
  · have hnil : cs.drop p = [] := List.drop_eq_nil_of_le (by omega)
    have hlen : cs.drop cs.length = [] := List.drop_eq_nil_of_le (le_refl _)
    have h2 := List.any_eq_false.mp h cs.length (by simp [List.mem_range])
    rw [hlen] at h2
    rw [hnil]
    exact Bool.eq_false_iff.mpr h2

/-- A substring absent from a text is absent from every suffix. -/
theorem containsSub_false_drop {m cs : List Char} (h : containsSub m cs = false) (k : Nat) :
    containsSub m (cs.drop k) = false := by
  unfold containsSub
  rw [List.any_eq_false]
  intro p hp
  rw [List.drop_drop]
  simp [containsSub_false_at h (k + p)]

/-- `str.find` fails when the needle does not occur. -/
theorem findSub_eq_none {m cs : List Char} (h : containsSub m cs = false) :
    findSub m cs = none := by
  unfold findSub
  apply searchWith_eq_none
  intro p
  rw [if_neg]
  simp [containsSub_false_at h p]

/-- The load regex finds nothing when either marker is absent. -/
theorem extractSavedLogic_eq_none {code : List Char}
    (h : containsSub msChars code = false ∨ containsSub meChars code = false) :
    extractSavedLogic code = none := by
  unfold extractSavedLogic
  rw [searchWith_eq_none]
  · rfl
  · intro p
    unfold tryMarkers
    cases h with
    | inl hms =>
      rw [if_neg]
      simp [containsSub_false_at hms p]
    | inr hme =>
      split
      · rw [List.drop_drop, findSub_eq_none (containsSub_false_drop hme _)]
        rfl
      · rfl

/-! ### Properties of the decimal renderer and parser -/

theorem digitChar_isDigit {k : Nat} (h : k < 10) : (Nat.digitChar k).isDigit = true := by
  interval_cases k <;> decide

theorem digitChar_toNat {k : Nat} (h : k < 10) : (Nat.digitChar k).toNat - 48 = k := by
  interval_cases k <;> decide

theorem digitsToNat_append_singleton (xs : List Char) (c : Char) :
    digitsToNat (xs ++ [c]) = digitsToNat xs * 10 + (c.toNat - 48) := by
  unfold digitsToNat
  rw [List.foldl_append]
  rfl

theorem natCharsAux_zero : ∀ fuel, natCharsAux fuel 0 = [] := by
  intro fuel
  cases fuel with
  | zero => rfl
  | succ f => simp [natCharsAux]

theorem natCharsAux_spec :
    ∀ fuel n, 0 < n → n ≤ fuel →
      natCharsAux fuel n ≠ [] ∧ (natCharsAux fuel n).all Char.isDigit = true ∧
      digitsToNat (natCharsAux fuel n) = n := by
  intro fuel
  induction fuel with
  | zero => intro n h1 h2; omega
  | succ f ih =>
    intro n h1 h2
    have hne : ¬ n = 0 := by omega
    simp only [natCharsAux, hne, if_false]
    by_cases h10 : n / 10 = 0
    · rw [h10, natCharsAux_zero]
      have hlt : n % 10 < 10 := Nat.mod_lt _ (by omega)
      refine ⟨by simp, by simp [digitChar_isDigit hlt], ?_⟩
      simp only [List.nil_append]
      show digitsToNat [Nat.digitChar (n % 10)] = n
      have : digitsToNat [Nat.digitChar (n % 10)] = (Nat.digitChar (n % 10)).toNat - 48 := by
        unfold digitsToNat; simp
      rw [this, digitChar_toNat hlt]
      omega
    · have hrec := ih (n / 10) (by omega) (by omega)
      have hlt : n % 10 < 10 := Nat.mod_lt _ (by omega)
      refine ⟨by simp, ?_, ?_⟩
      · rw [List.all_append]
        simp [hrec.2.1, digitChar_isDigit hlt]
      · rw [digitsToNat_append_singleton, hrec.2.2, digitChar_toNat hlt]
        omega

theorem natChars_ne_nil (n : Nat) : natChars n ≠ [] := by
  unfold natChars
  by_cases h : n = 0
  · simp [h]
  · simpa [h] using (natCharsAux_spec n n (by omega) le_rfl).1

theorem natChars_all_digit (n : Nat) : (natChars n).all Char.isDigit = true := by
  unfold natChars
  by_cases h : n = 0
  · simp [h]
  · simpa [h] using (natCharsAux_spec n n (by omega) le_rfl).2.1

theorem digitsToNat_natChars (n : Nat) : digitsToNat (natChars n) = n := by
  unfold natChars
  by_cases h : n = 0
  · simp [h]; rfl
  · simpa [h] using (natCharsAux_spec n n (by omega) le_rfl).2.2

theorem headD_append_left {A : List Char} (B : List Char) (d : Char) (h : A ≠ []) :
    (A ++ B).headD d = A.headD d := by
  cases A with
  | nil => exact absurd rfl h
  | cons c cs => rfl

theorem headD_mem {A : List Char} (d : Char) (h : A ≠ []) : A.headD d ∈ A := by
  cases A with
  | nil => exact absurd rfl h
  | cons c cs => simp

theorem formatFixed2_ne_nil (n : Nat) : formatFixed2 n ≠ [] := by
  unfold formatFixed2
  simp [natChars_ne_nil]

theorem formatFixed1_ne_nil (n : Nat) : formatFixed1 n ≠ [] := by
  unfold formatFixed1
  simp [natChars_ne_nil]

theorem all_isDigitDot_of_all_isDigit {l : List Char} (h : l.all Char.isDigit = true) :
    l.all isDigitDot = true := by
  rw [List.all_eq_true] at h ⊢
  intro c hc
  unfold isDigitDot
  simp [h c hc]

theorem formatFixed2_all (n : Nat) : (formatFixed2 n).all isDigitDot = true := by
  unfold formatFixed2
  rw [List.all_append]
  have h1 : n % 100 / 10 < 10 := by omega
  have h2 : n % 10 < 10 := by omega
  simp [all_isDigitDot_of_all_isDigit (natChars_all_digit _), isDigitDot,
    digitChar_isDigit h1, digitChar_isDigit h2]

theorem formatFixed1_all (n : Nat) : (formatFixed1 n).all isDigitDot = true := by
  unfold formatFixed1
  rw [List.all_append]
  have h2 : n % 10 < 10 := by omega
  simp [all_isDigitDot_of_all_isDigit (natChars_all_digit _), isDigitDot, digitChar_isDigit h2]

theorem formatFixed2_headD (n : Nat) : ((formatFixed2 n).headD 'x').isDigit = true := by
  unfold formatFixed2
  rw [headD_append_left _ _ (natChars_ne_nil _)]
  have := List.all_eq_true.mp (natChars_all_digit (n / 100)) _
    (headD_mem 'x' (natChars_ne_nil (n / 100)))
  simpa using this

theorem formatFixed1_headD (n : Nat) : ((formatFixed1 n).headD 'x').isDigit = true := by
  unfold formatFixed1
  rw [headD_append_left _ _ (natChars_ne_nil _)]
  have := List.all_eq_true.mp (natChars_all_digit (n / 10)) _
    (headD_mem 'x' (natChars_ne_nil (n / 10)))
  simpa using this

theorem takeWhile_isDigit_natChars_append (n : Nat) (rest : List Char) :
    ((natChars n ++ rest).takeWhile Char.isDigit) =
      natChars n ++ rest.takeWhile Char.isDigit := by
  apply List.takeWhile_append_of_pos
  intro c hc
  exact List.all_eq_true.mp (natChars_all_digit n) c hc

/-- Parsing inverts the 2-decimal rendering exactly. -/
theorem parseFloatDD_formatFixed2 (n : Nat) : parseFloatDD (formatFixed2 n) = some (n, 2) := by
  unfold parseFloatDD formatFixed2
  have hd1 : n % 100 / 10 < 10 := by omega
  have hd2 : n % 10 < 10 := by omega
  have htw : ((natChars (n / 100) ++
      '.' :: Nat.digitChar (n % 100 / 10) :: [Nat.digitChar (n % 10)]).takeWhile Char.isDigit) =
      natChars (n / 100) := by
    rw [takeWhile_isDigit_natChars_append]
    simp [List.takeWhile_cons]
  dsimp only
  rw [htw, List.drop_left]
  have hval : digitsToNat (natChars (n / 100) ++
      [Nat.digitChar (n % 100 / 10), Nat.digitChar (n % 10)]) = n := by
    have e : natChars (n / 100) ++ [Nat.digitChar (n % 100 / 10), Nat.digitChar (n % 10)] =
        (natChars (n / 100) ++ [Nat.digitChar (n % 100 / 10)]) ++ [Nat.digitChar (n % 10)] := by
      simp
    rw [e, digitsToNat_append_singleton, digitsToNat_append_singleton,
      digitsToNat_natChars, digitChar_toNat hd1, digitChar_toNat hd2]
    omega
  simp [digitChar_isDigit hd1, digitChar_isDigit hd2, natChars_ne_nil, hval]

/-- Parsing inverts the 1-decimal rendering exactly. -/
theorem parseFloatDD_formatFixed1 (n : Nat) : parseFloatDD (formatFixed1 n) = some (n, 1) := by
  unfold parseFloatDD formatFixed1
  have hd2 : n % 10 < 10 := by omega
  have htw : ((natChars (n / 10) ++ '.' :: [Nat.digitChar (n % 10)]).takeWhile Char.isDigit) =
      natChars (n / 10) := by
    rw [takeWhile_isDigit_natChars_append]
    simp [List.takeWhile_cons]
  dsimp only
  rw [htw, List.drop_left]
  have hval : digitsToNat (natChars (n / 10) ++ [Nat.digitChar (n % 10)]) = n := by
    rw [digitsToNat_append_singleton, digitsToNat_natChars, digitChar_toNat hd2]
    omega
  simp [digitChar_isDigit hd2, natChars_ne_nil, hval]

/-- `setValue` is the identity on an in-range value with matching
decimals. -/
theorem spinSetValue_exact (lo hi d n : Nat) (h1 : lo ≤ n) (h2 : n ≤ hi) :
    spinSetValue lo hi d n d = n := by
  unfold spinSetValue
  simp [Nat.le_refl]
  omega

/-! ### Locating the leftmost pattern match inside a rendered text -/

theorem tryMatchAssign_fail {name : List Char} (cs : List Char) (h : ¬ name <+: cs) :
    tryMatchAssign name cs = none := by
  unfold tryMatchAssign
  rw [if_neg (fun hp => h (List.isPrefixOf_iff_prefix.mp hp))]

theorem tryMatchQuoted_fail {name : List Char} (cs : List Char) (h : ¬ name <+: cs) :
    tryMatchQuoted name cs = none := by
  unfold tryMatchQuoted
  rw [if_neg (fun hp => h (List.isPrefixOf_iff_prefix.mp hp))]

theorem tryMatchQuotedNE_fail {name : List Char} (cs : List Char) (h : ¬ name <+: cs) :
    tryMatchQuotedNE name cs = none := by
  unfold tryMatchQuotedNE
  rw [tryMatchQuoted_fail cs h]

theorem searchWith_head {α : Type} (f : List Char → Option α) (cs : List Char) (a : α)
    (h : f cs = some a) : searchWith f cs = some ([], a) := by
  cases cs with
  | nil => unfold searchWith; rw [h]; rfl
  | cons c cs => unfold searchWith; rw [h]

/-- Skipping a region where the matcher fails at every position. -/
theorem searchWith_skip {α : Type} (f : List Char → Option α) :
    ∀ (B T : List Char), (∀ p < B.length, f ((B ++ T).drop p) = none) →
      searchWith f (B ++ T) = (searchWith f T).map (fun q => (B ++ q.1, q.2)) := by
  intro B
  induction B with
  | nil =>
    intro T h
    simp only [List.nil_append]
    cases searchWith f T with
    | none => rfl
    | some q => rfl
  | cons c B ih =>
    intro T h
    have h0 := h 0 (by simp)
    rw [List.drop_zero, show ((c :: B) ++ T) = c :: (B ++ T) from rfl] at h0
    have step : searchWith f ((c :: B) ++ T) =
        (searchWith f (B ++ T)).map (fun p => (c :: p.1, p.2)) := by
      show searchWith f (c :: (B ++ T)) = _
      conv_lhs => rw [searchWith]
      rw [h0]
    rw [step, ih T (fun p hp => by
      have := h (p + 1) (by simpa using Nat.succ_lt_succ hp)
      rwa [show ((c :: B) ++ T) = c :: (B ++ T) from rfl, List.drop_succ_cons] at this)]
    cases searchWith f T with
    | none => rfl
    | some q => rfl

theorem prefix_append_left {m A X : List Char} (hlen : m.length ≤ A.length)
    (h : m <+: A ++ X) : m <+: A := by
  rw [List.prefix_iff_eq_take] at h
  rw [List.take_append_eq_append_take, Nat.sub_eq_zero_of_le hlen, List.take_zero,
    List.append_nil] at h
  rw [h]
  exact List.take_prefix _ _

theorem getElem_zero_eq_headD {l : List Char} (d : Char) (h : 0 < l.length) :
    l[0] = l.headD d := by
  cases l with
  | nil => simp at h
  | cons c cs => rfl

/-- No occurrence of `name` can start inside a literal region that is
followed by a digit-headed value: in-region windows are excluded by the
decidable hypothesis, and boundary windows would force a digit into
`name`. -/
theorem noPrefix_lit_num {name B v : List Char} (R : List Char)
    (hname : name.all (fun c => !c.isDigit) = true)
    (hvne : v ≠ []) (hvh : (v.headD 'x').isDigit = true)
    (hconc : ∀ p < B.length, p + name.length ≤ B.length → ¬ name <+: B.drop p) :
    ∀ p < B.length, ¬ name <+: ((B ++ (v ++ R)).drop p) := by
  intro p hp hpre
  have hdrop : (B ++ (v ++ R)).drop p = B.drop p ++ (v ++ R) := by
    rw [List.drop_append_eq_append_drop, Nat.sub_eq_zero_of_le (by omega), List.drop_zero]
  rw [hdrop] at hpre
  by_cases hwin : p + name.length ≤ B.length
  · exact hconc p hp hwin (prefix_append_left (by simp; omega) hpre)
  · have hi : B.length - p < name.length := by omega
    have hvpos : 0 < v.length := List.length_pos.mpr hvne
    have hget := hpre.getElem (n := B.length - p) hi
    rw [List.getElem_append_right (by simp)] at hget
    rw [List.getElem_append_left (by simpa using hvpos)] at hget
    have hidx : B.length - p - (List.drop p B).length = 0 := by simp
    simp only [hidx] at hget
    rw [getElem_zero_eq_headD 'x' hvpos] at hget
    have hnd := List.all_eq_true.mp hname _ (List.getElem_mem hi)
    rw [hget] at hnd
    have hnd2 : (!(v.headD 'x').isDigit) = true := hnd
    rw [hvh] at hnd2
    exact absurd hnd2 (by decide)

/-- No occurrence of `name` can start inside a `[\d.]` value run when
`name` does not begin with a digit or dot. -/
theorem noPrefix_num {name v : List Char} (R : List Char)
    (hna : name ≠ []) (hnh : isDigitDot (name.headD 'x') = false)
    (hv : v.all isDigitDot = true) :
    ∀ p < v.length, ¬ name <+: ((v ++ R).drop p) := by
  intro p hp hpre
  have hdrop : (v ++ R).drop p = v.drop p ++ R := by
    rw [List.drop_append_eq_append_drop, Nat.sub_eq_zero_of_le (by omega), List.drop_zero]
  rw [hdrop] at hpre
  have hnpos : 0 < name.length := List.length_pos.mpr hna
  have hvdrop : 0 < (v.drop p).length := by simp; omega
  have hget := hpre.getElem (n := 0) hnpos
  rw [List.getElem_append_left hvdrop] at hget
  have h1 : name[0] = name.headD 'x' := getElem_zero_eq_headD 'x' hnpos
  have h2 : (v.drop p)[0] = v[p] := by
    simp [List.getElem_drop]
  have h3 := List.all_eq_true.mp hv _ (List.getElem_mem hp)
  rw [h1, h2] at hget
  rw [hget] at hnh
  rw [h3] at hnh
  exact Bool.true_eq_false.mp hnh

/-- No occurrence of `name` can start inside a literal region whose
continuation begins with `name` itself, by the decidable window check. -/
theorem noPrefix_lit_concrete {name B : List Char} (T' : List Char)
    (h : ∀ p < B.length, ¬ name <+: (B.drop p ++ name)) :
    ∀ p < B.length, ¬ name <+: ((B ++ (name ++ T')).drop p) := by
  intro p hp hpre
  have hdrop : (B ++ (name ++ T')).drop p = B.drop p ++ (name ++ T') := by
    rw [List.drop_append_eq_append_drop, Nat.sub_eq_zero_of_le (by omega), List.drop_zero]
  rw [hdrop] at hpre
  apply h p hp
  rw [List.prefix_iff_eq_take] at hpre ⊢
  rw [List.take_append_eq_append_take] at hpre ⊢
  rw [List.take_append_eq_append_take,
    Nat.sub_eq_zero_of_le (Nat.sub_le name.length (B.drop p).length),
    List.take_zero, List.append_nil] at hpre
  exact hpre

/-- Combined skip over a literal segment followed by a value run. -/
theorem searchWith_skip_lit_num {α : Type} (f : List Char → Option α) (name B v R : List Char)
    (hfail : ∀ cs, ¬ name <+: cs → f cs = none)
    (hname : name.all (fun c => !c.isDigit) = true)
    (hna : name ≠ []) (hnh : isDigitDot (name.headD 'x') = false)
    (hvne : v ≠ []) (hvh : (v.headD 'x').isDigit = true)
    (hvall : v.all isDigitDot = true)
    (hconc : ∀ p < B.length, p + name.length ≤ B.length → ¬ name <+: B.drop p) :
    searchWith f (B ++ (v ++ R)) =
      (searchWith f R).map (fun q => (B ++ (v ++ q.1), q.2)) := by
  rw [searchWith_skip f B (v ++ R)
    (fun p hp => hfail _ (noPrefix_lit_num R hname hvne hvh hconc p hp))]
  rw [searchWith_skip f v R (fun p hp => hfail _ (noPrefix_num R hna hnh hvall p hp))]
  cases searchWith f R with
  | none => rfl
  | some q => rfl

/-- Skip a literal segment when the continuation starts with the
pattern name itself. -/
theorem searchWith_skip_to_name {α : Type} (f : List Char → Option α) (name B T' : List Char)
    (hfail : ∀ cs, ¬ name <+: cs → f cs = none)
    (hconc : ∀ p < B.length, ¬ name <+: (B.drop p ++ name)) :
    searchWith f (B ++ (name ++ T')) =
      (searchWith f (name ++ T')).map (fun q => (B ++ q.1, q.2)) :=
  searchWith_skip f B (name ++ T')
    (fun p hp => hfail _ (noPrefix_lit_concrete T' hconc p hp))

theorem not_space_of_digitDot {c : Char} (h : isDigitDot c = true) : isSpaceChar c = false := by
  by_cases hs : isSpaceChar c = true
  · exfalso
    have hdd : isDigitDot c = false := by
      unfold isSpaceChar at hs
      simp only [Bool.or_eq_true, decide_eq_true_eq] at hs
      rcases hs with ((((h1 | h1) | h1) | h1) | h1) | h1 <;> subst h1 <;> decide
    rw [hdd] at h
    exact absurd h (by decide)
  · exact Bool.eq_false_iff.mpr hs

/-- The numeric matcher at the exact position of a rendered header
assignment `name = value…`. -/
theorem tryMatchAssign_at_head (name v rest : List Char)
    (hv : v ≠ []) (hvall : v.all isDigitDot = true)
    (hrne : rest ≠ []) (hrh : isDigitDot (rest.headD 'x') = false) :
    tryMatchAssign name (name ++ (' ' :: '=' :: ' ' :: (v ++ rest))) =
      some (name ++ [' ', '=', ' '], v, rest) := by
  unfold tryMatchAssign
  rw [if_pos (List.isPrefixOf_iff_prefix.mpr (List.prefix_append _ _))]
  rw [List.drop_left]
  dsimp only
  have htw1 : (' ' :: '=' :: ' ' :: (v ++ rest)).takeWhile isSpaceChar = [' '] := by
    simp [List.takeWhile_cons, isSpaceChar]
  have hdw1 : (' ' :: '=' :: ' ' :: (v ++ rest)).dropWhile isSpaceChar =
      '=' :: ' ' :: (v ++ rest) := by
    simp [List.dropWhile_cons, isSpaceChar]
  rw [htw1, hdw1]
  have htw2 : (' ' :: (v ++ rest)).takeWhile isSpaceChar = [' '] := by
    obtain ⟨c, cs, rfl⟩ := List.exists_cons_of_ne_nil hv
    have hns : isSpaceChar c = false :=
      not_space_of_digitDot (List.all_eq_true.mp hvall c (by simp))
    simp [List.takeWhile_cons, hns, show isSpaceChar ' ' = true from by decide]
  have hdw2 : (' ' :: (v ++ rest)).dropWhile isSpaceChar = v ++ rest := by
    obtain ⟨c, cs, rfl⟩ := List.exists_cons_of_ne_nil hv
    have hns : isSpaceChar c = false :=
      not_space_of_digitDot (List.all_eq_true.mp hvall c (by simp))
    simp [List.dropWhile_cons, hns, show isSpaceChar ' ' = true from by decide]
  have htwv : (v ++ rest).takeWhile isDigitDot = v := by
    rw [List.takeWhile_append_of_pos (fun c hc => List.all_eq_true.mp hvall c hc)]
    obtain ⟨c, cs, rfl⟩ := List.exists_cons_of_ne_nil hrne
    have hdd : isDigitDot c = false := by simpa using hrh
    simp [List.takeWhile_cons, hdd]
  split
  case h_2 hne => exact absurd rfl (hne (' ' :: (v ++ rest)))
  case h_1 r2 heq =>
    injection heq with h1 h2
    subst h2
    rw [htw2, hdw2, htwv]
    rw [if_neg hv, List.drop_left]
    simp

/-- The quoted matcher at the exact position of the rendered colour
assignment `name = "colour"…`. -/
theorem tryMatchQuoted_at_head (name w rest : List Char)
    (hwq : w.all (fun c => c ≠ '"') = true) :
    tryMatchQuoted name (name ++ (' ' :: '=' :: ' ' :: '"' :: (w ++ ('"' :: rest)))) =
      some (name ++ [' ', '=', ' ', '"'], w, '"' :: rest) := by
  unfold tryMatchQuoted
  rw [if_pos (List.isPrefixOf_iff_prefix.mpr (List.prefix_append _ _))]
  rw [List.drop_left]
  dsimp only
  have htw1 : (' ' :: '=' :: ' ' :: '"' :: (w ++ ('"' :: rest))).takeWhile isSpaceChar =
      [' '] := by
    simp [List.takeWhile_cons, show isSpaceChar ' ' = true from by decide,
      show isSpaceChar '=' = false from by decide]
  have hdw1 : (' ' :: '=' :: ' ' :: '"' :: (w ++ ('"' :: rest))).dropWhile isSpaceChar =
      '=' :: ' ' :: '"' :: (w ++ ('"' :: rest)) := by
    simp [List.dropWhile_cons, show isSpaceChar ' ' = true from by decide,
      show isSpaceChar '=' = false from by decide]
  rw [htw1, hdw1]
  have htw2 : (' ' :: '"' :: (w ++ ('"' :: rest))).takeWhile isSpaceChar = [' '] := by
    simp [List.takeWhile_cons, show isSpaceChar ' ' = true from by decide,
      show isSpaceChar '\"' = false from by decide]
  have hdw2 : (' ' :: '"' :: (w ++ ('"' :: rest))).dropWhile isSpaceChar =
      '"' :: (w ++ ('"' :: rest)) := by
    simp [List.dropWhile_cons, show isSpaceChar ' ' = true from by decide,
      show isSpaceChar '\"' = false from by decide]
  have htwq : (w ++ ('"' :: rest)).takeWhile (fun c => c ≠ '"') = w := by
    rw [List.takeWhile_append_of_pos (fun c hc => List.all_eq_true.mp hwq c hc)]
    simp [List.takeWhile_cons]
  split
  case h_2 hne => exact absurd rfl (hne (' ' :: '"' :: (w ++ ('"' :: rest))))
  case h_1 r2 heq =>
    injection heq with h1 h2
    subst h2
    rw [htw2, hdw2]
    split
    case h_2 hne => exact absurd rfl (hne (w ++ ('"' :: rest)))
    case h_1 r3 heq3 =>
      injection heq3 with h3 h4
      subst h4
      rw [htwq, List.drop_left]
      split
      case h_2 hne => exact absurd rfl (hne rest)
      case h_1 r4 heq4 =>
        simp

/-- The nonempty-quoted extraction matcher at the same position. -/
theorem tryMatchQuotedNE_at_head (name w rest : List Char)
    (hw : w ≠ []) (hwq : w.all (fun c => c ≠ '"') = true) :
    tryMatchQuotedNE name (name ++ (' ' :: '=' :: ' ' :: '"' :: (w ++ ('"' :: rest)))) =
      some (name ++ [' ', '=', ' ', '"'], w, '"' :: rest) := by
  unfold tryMatchQuotedNE
  rw [tryMatchQuoted_at_head name w rest hwq]
  dsimp only
  rw [if_neg hw]

theorem colourText_ne_nil (c : Colour) : c.text ≠ [] := by
  cases c <;> decide

theorem colourText_no_quote (c : Colour) : c.text.all (fun ch => ch ≠ '\"') = true := by
  cases c <;> decide

set_option maxRecDepth 10000 in
/-- Leftmost match of the `nameFwd` pattern in a rendered text: it is the header assignment, whose captured value is exactly the rendered parameter. -/
theorem searchRender_fwd (P : Params) :
    ∃ b pfx r, searchWith (tryMatchAssign nameFwd) (generateSimpleCode P) =
      some (b, (pfx, formatFixed2 P.forward_speed, r)) := by
  have hsplit : generateSimpleCode P =
      "from codebotair import Robot\n\nclass Movement(Robot):\n    def __init__(self):\n        super().__init__()\n        # === Editable Parameters ===\n        ".data ++ (nameFwd ++ (' ' :: '=' :: ' ' :: (formatFixed2 P.forward_speed ++ (hdrA1.data ++ (formatFixed2 P.backward_speed ++ (hdrA2.data ++ (formatFixed2 P.turn_speed ++ (hdrA3.data ++ (formatFixed2 P.obstacle_distance ++ (hdrA4.data ++ (formatFixed1 P.turn_cw_deg ++ (hdrA5.data ++ (formatFixed1 P.turn_acw_deg ++ (hdrA6.data ++ (P.colour_detection.text ++ hdrA7.data))))))))))))))) := by
    have h0 : hdrA0.data =
        "from codebotair import Robot\n\nclass Movement(Robot):\n    def __init__(self):\n        super().__init__()\n        # === Editable Parameters ===\n        ".data ++ (nameFwd ++ [' ', '=', ' ']) := by decide
    unfold generateSimpleCode
    rw [h0]
    simp [List.append_assoc]
  rw [hsplit]
  rw [searchWith_skip_to_name _ nameFwd _ _ tryMatchAssign_fail (by decide)]
  rw [searchWith_head _ _ _ (tryMatchAssign_at_head nameFwd _ _ (formatFixed2_ne_nil _)
    (formatFixed2_all _)
    (by simp [hdrA1])
    (by rw [headD_append_left _ _ (by decide)]; decide))]
  exact ⟨_, _, _, rfl⟩

set_option maxRecDepth 10000 in
/-- Leftmost match of the `nameBwd` pattern in a rendered text: it is the header assignment, whose captured value is exactly the rendered parameter. -/
theorem searchRender_bwd (P : Params) :
    ∃ b pfx r, searchWith (tryMatchAssign nameBwd) (generateSimpleCode P) =
      some (b, (pfx, formatFixed2 P.backward_speed, r)) := by
  have hsplit : generateSimpleCode P =
      hdrA0.data ++ (formatFixed2 P.forward_speed ++ ("       # m/s  ← edit\n        ".data ++ (nameBwd ++ (' ' :: '=' :: ' ' :: (formatFixed2 P.backward_speed ++ (hdrA2.data ++ (formatFixed2 P.turn_speed ++ (hdrA3.data ++ (formatFixed2 P.obstacle_distance ++ (hdrA4.data ++ (formatFixed1 P.turn_cw_deg ++ (hdrA5.data ++ (formatFixed1 P.turn_acw_deg ++ (hdrA6.data ++ (P.colour_detection.text ++ hdrA7.data))))))))))))))) := by
    have h0 : hdrA1.data =
        "       # m/s  ← edit\n        ".data ++ (nameBwd ++ [' ', '=', ' ']) := by decide
    unfold generateSimpleCode
    rw [h0]
    simp [List.append_assoc]
  rw [hsplit]
  rw [searchWith_skip_lit_num _ nameBwd hdrA0.data (formatFixed2 P.forward_speed) _ tryMatchAssign_fail
    (by decide) (by decide) (by decide) (formatFixed2_ne_nil _) (formatFixed2_headD _) (formatFixed2_all _) (by decide)]
  rw [searchWith_skip_to_name _ nameBwd _ _ tryMatchAssign_fail (by decide)]
  rw [searchWith_head _ _ _ (tryMatchAssign_at_head nameBwd _ _ (formatFixed2_ne_nil _)
    (formatFixed2_all _)
    (by simp [hdrA2])
    (by rw [headD_append_left _ _ (by decide)]; decide))]
  exact ⟨_, _, _, rfl⟩

set_option maxRecDepth 10000 in
/-- Leftmost match of the `nameTurn` pattern in a rendered text: it is the header assignment, whose captured value is exactly the rendered parameter. -/
theorem searchRender_turn (P : Params) :
    ∃ b pfx r, searchWith (tryMatchAssign nameTurn) (generateSimpleCode P) =
      some (b, (pfx, formatFixed2 P.turn_speed, r)) := by
  have hsplit : generateSimpleCode P =
      hdrA0.data ++ (formatFixed2 P.forward_speed ++ (hdrA1.data ++ (formatFixed2 P.backward_speed ++ ("      # m/s  ← edit\n        ".data ++ (nameTurn ++ (' ' :: '=' :: ' ' :: (formatFixed2 P.turn_speed ++ (hdrA3.data ++ (formatFixed2 P.obstacle_distance ++ (hdrA4.data ++ (formatFixed1 P.turn_cw_deg ++ (hdrA5.data ++ (formatFixed1 P.turn_acw_deg ++ (hdrA6.data ++ (P.colour_detection.text ++ hdrA7.data))))))))))))))) := by
    have h0 : hdrA2.data =
        "      # m/s  ← edit\n        ".data ++ (nameTurn ++ [' ', '=', ' ']) := by decide
    unfold generateSimpleCode
    rw [h0]
    simp [List.append_assoc]
  rw [hsplit]
  rw [searchWith_skip_lit_num _ nameTurn hdrA0.data (formatFixed2 P.forward_speed) _ tryMatchAssign_fail
    (by decide) (by decide) (by decide) (formatFixed2_ne_nil _) (formatFixed2_headD _) (formatFixed2_all _) (by decide)]
  rw [searchWith_skip_lit_num _ nameTurn hdrA1.data (formatFixed2 P.backward_speed) _ tryMatchAssign_fail
    (by decide) (by decide) (by decide) (formatFixed2_ne_nil _) (formatFixed2_headD _) (formatFixed2_all _) (by decide)]
  rw [searchWith_skip_to_name _ nameTurn _ _ tryMatchAssign_fail (by decide)]
  rw [searchWith_head _ _ _ (tryMatchAssign_at_head nameTurn _ _ (formatFixed2_ne_nil _)
    (formatFixed2_all _)
    (by simp [hdrA3])
    (by rw [headD_append_left _ _ (by decide)]; decide))]
  exact ⟨_, _, _, rfl⟩

set_option maxRecDepth 10000 in
/-- Leftmost match of the `nameObs` pattern in a rendered text: it is the header assignment, whose captured value is exactly the rendered parameter. -/
theorem searchRender_obs (P : Params) :
    ∃ b pfx r, searchWith (tryMatchAssign nameObs) (generateSimpleCode P) =
      some (b, (pfx, formatFixed2 P.obstacle_distance, r)) := by
  have hsplit : generateSimpleCode P =
      hdrA0.data ++ (formatFixed2 P.forward_speed ++ (hdrA1.data ++ (formatFixed2 P.backward_speed ++ (hdrA2.data ++ (formatFixed2 P.turn_speed ++ ("          # rad/s  ← edit\n        ".data ++ (nameObs ++ (' ' :: '=' :: ' ' :: (formatFixed2 P.obstacle_distance ++ (hdrA4.data ++ (formatFixed1 P.turn_cw_deg ++ (hdrA5.data ++ (formatFixed1 P.turn_acw_deg ++ (hdrA6.data ++ (P.colour_detection.text ++ hdrA7.data))))))))))))))) := by
    have h0 : hdrA3.data =
        "          # rad/s  ← edit\n        ".data ++ (nameObs ++ [' ', '=', ' ']) := by decide
    unfold generateSimpleCode
    rw [h0]
    simp [List.append_assoc]
  rw [hsplit]
  rw [searchWith_skip_lit_num _ nameObs hdrA0.data (formatFixed2 P.forward_speed) _ tryMatchAssign_fail
    (by decide) (by decide) (by decide) (formatFixed2_ne_nil _) (formatFixed2_headD _) (formatFixed2_all _) (by decide)]
  rw [searchWith_skip_lit_num _ nameObs hdrA1.data (formatFixed2 P.backward_speed) _ tryMatchAssign_fail
    (by decide) (by decide) (by decide) (formatFixed2_ne_nil _) (formatFixed2_headD _) (formatFixed2_all _) (by decide)]
  rw [searchWith_skip_lit_num _ nameObs hdrA2.data (formatFixed2 P.turn_speed) _ tryMatchAssign_fail
    (by decide) (by decide) (by decide) (formatFixed2_ne_nil _) (formatFixed2_headD _) (formatFixed2_all _) (by decide)]
  rw [searchWith_skip_to_name _ nameObs _ _ tryMatchAssign_fail (by decide)]
  rw [searchWith_head _ _ _ (tryMatchAssign_at_head nameObs _ _ (formatFixed2_ne_nil _)
    (formatFixed2_all _)
    (by simp [hdrA4])
    (by rw [headD_append_left _ _ (by decide)]; decide))]
  exact ⟨_, _, _, rfl⟩

set_option maxRecDepth 10000 in
/-- Leftmost match of the `nameCw` pattern in a rendered text: it is the header assignment, whose captured value is exactly the rendered parameter. -/
theorem searchRender_cw (P : Params) :
    ∃ b pfx r, searchWith (tryMatchAssign nameCw) (generateSimpleCode P) =
      some (b, (pfx, formatFixed1 P.turn_cw_deg, r)) := by
  have hsplit : generateSimpleCode P =
      hdrA0.data ++ (formatFixed2 P.forward_speed ++ (hdrA1.data ++ (formatFixed2 P.backward_speed ++ (hdrA2.data ++ (formatFixed2 P.turn_speed ++ (hdrA3.data ++ (formatFixed2 P.obstacle_distance ++ ("   # metres  ← edit\n        ".data ++ (nameCw ++ (' ' :: '=' :: ' ' :: (formatFixed1 P.turn_cw_deg ++ (hdrA5.data ++ (formatFixed1 P.turn_acw_deg ++ (hdrA6.data ++ (P.colour_detection.text ++ hdrA7.data))))))))))))))) := by
    have h0 : hdrA4.data =
        "   # metres  ← edit\n        ".data ++ (nameCw ++ [' ', '=', ' ']) := by decide
    unfold generateSimpleCode
    rw [h0]
    simp [List.append_assoc]
  rw [hsplit]
  rw [searchWith_skip_lit_num _ nameCw hdrA0.data (formatFixed2 P.forward_speed) _ tryMatchAssign_fail
    (by decide) (by decide) (by decide) (formatFixed2_ne_nil _) (formatFixed2_headD _) (formatFixed2_all _) (by decide)]
  rw [searchWith_skip_lit_num _ nameCw hdrA1.data (formatFixed2 P.backward_speed) _ tryMatchAssign_fail
    (by decide) (by decide) (by decide) (formatFixed2_ne_nil _) (formatFixed2_headD _) (formatFixed2_all _) (by decide)]
  rw [searchWith_skip_lit_num _ nameCw hdrA2.data (formatFixed2 P.turn_speed) _ tryMatchAssign_fail
    (by decide) (by decide) (by decide) (formatFixed2_ne_nil _) (formatFixed2_headD _) (formatFixed2_all _) (by decide)]
  rw [searchWith_skip_lit_num _ nameCw hdrA3.data (formatFixed2 P.obstacle_distance) _ tryMatchAssign_fail
    (by decide) (by decide) (by decide) (formatFixed2_ne_nil _) (formatFixed2_headD _) (formatFixed2_all _) (by decide)]
  rw [searchWith_skip_to_name _ nameCw _ _ tryMatchAssign_fail (by decide)]
  rw [searchWith_head _ _ _ (tryMatchAssign_at_head nameCw _ _ (formatFixed1_ne_nil _)
    (formatFixed1_all _)
    (by simp [hdrA5])
    (by rw [headD_append_left _ _ (by decide)]; decide))]
  exact ⟨_, _, _, rfl⟩

set_option maxRecDepth 10000 in
/-- Leftmost match of the `nameAcw` pattern in a rendered text: it is the header assignment, whose captured value is exactly the rendered parameter. -/
theorem searchRender_acw (P : Params) :
    ∃ b pfx r, searchWith (tryMatchAssign nameAcw) (generateSimpleCode P) =
      some (b, (pfx, formatFixed1 P.turn_acw_deg, r)) := by
  have hsplit : generateSimpleCode P =
      hdrA0.data ++ (formatFixed2 P.forward_speed ++ (hdrA1.data ++ (formatFixed2 P.backward_speed ++ (hdrA2.data ++ (formatFixed2 P.turn_speed ++ (hdrA3.data ++ (formatFixed2 P.obstacle_distance ++ (hdrA4.data ++ (formatFixed1 P.turn_cw_deg ++ ("         # degrees CW  ← edit\n        ".data ++ (nameAcw ++ (' ' :: '=' :: ' ' :: (formatFixed1 P.turn_acw_deg ++ (hdrA6.data ++ (P.colour_detection.text ++ hdrA7.data))))))))))))))) := by
    have h0 : hdrA5.data =
        "         # degrees CW  ← edit\n        ".data ++ (nameAcw ++ [' ', '=', ' ']) := by decide
    unfold generateSimpleCode
    rw [h0]
    simp [List.append_assoc]
  rw [hsplit]
  rw [searchWith_skip_lit_num _ nameAcw hdrA0.data (formatFixed2 P.forward_speed) _ tryMatchAssign_fail
    (by decide) (by decide) (by decide) (formatFixed2_ne_nil _) (formatFixed2_headD _) (formatFixed2_all _) (by decide)]
  rw [searchWith_skip_lit_num _ nameAcw hdrA1.data (formatFixed2 P.backward_speed) _ tryMatchAssign_fail
    (by decide) (by decide) (by decide) (formatFixed2_ne_nil _) (formatFixed2_headD _) (formatFixed2_all _) (by decide)]
  rw [searchWith_skip_lit_num _ nameAcw hdrA2.data (formatFixed2 P.turn_speed) _ tryMatchAssign_fail
    (by decide) (by decide) (by decide) (formatFixed2_ne_nil _) (formatFixed2_headD _) (formatFixed2_all _) (by decide)]
  rw [searchWith_skip_lit_num _ nameAcw hdrA3.data (formatFixed2 P.obstacle_distance) _ tryMatchAssign_fail
    (by decide) (by decide) (by decide) (formatFixed2_ne_nil _) (formatFixed2_headD _) (formatFixed2_all _) (by decide)]
  rw [searchWith_skip_lit_num _ nameAcw hdrA4.data (formatFixed1 P.turn_cw_deg) _ tryMatchAssign_fail
    (by decide) (by decide) (by decide) (formatFixed1_ne_nil _) (formatFixed1_headD _) (formatFixed1_all _) (by decide)]
  rw [searchWith_skip_to_name _ nameAcw _ _ tryMatchAssign_fail (by decide)]
  rw [searchWith_head _ _ _ (tryMatchAssign_at_head nameAcw _ _ (formatFixed1_ne_nil _)
    (formatFixed1_all _)
    (by simp [hdrA6])
    (by rw [headD_append_left _ _ (by decide)]; decide))]
  exact ⟨_, _, _, rfl⟩

set_option maxRecDepth 10000 in
/-- Leftmost match of the `nameColour` pattern in a rendered text: it is the header assignment, whose captured value is exactly the rendered parameter. -/
theorem searchRender_colour (P : Params) :
    ∃ b pfx r, searchWith (tryMatchQuotedNE nameColour) (generateSimpleCode P) =
      some (b, (pfx, P.colour_detection.text, r)) := by
  have hsplit : generateSimpleCode P =
      hdrA0.data ++ (formatFixed2 P.forward_speed ++ (hdrA1.data ++ (formatFixed2 P.backward_speed ++ (hdrA2.data ++ (formatFixed2 P.turn_speed ++ (hdrA3.data ++ (formatFixed2 P.obstacle_distance ++ (hdrA4.data ++ (formatFixed1 P.turn_cw_deg ++ (hdrA5.data ++ (formatFixed1 P.turn_acw_deg ++ ("        # degrees ACW  ← edit\n        ".data ++ (nameColour ++ (' ' :: '=' :: ' ' :: '\"' :: (P.colour_detection.text ++ ('\"' :: "   # Red|Blue|Yellow|Green  ← edit\n\n    # vvv Drag and drop functions below vvv\n\n    def control_loop(self):\n        # === Movement Logic ===\n        if self.obstacle_in_front():\n            self.stop()                       # stop movement\n            self.turn_cw(self.turn_cw_deg)    # turn clockwise  ← edit\n        else:\n            self.move(self.forward_speed)     # drive forward  ← edit\n".data)))))))))))))))) := by
    have h0 : hdrA6.data =
        "        # degrees ACW  ← edit\n        ".data ++ (nameColour ++ [' ', '=', ' ', '\"']) := by decide
    have h7 : hdrA7.data = '\"' :: "   # Red|Blue|Yellow|Green  ← edit\n\n    # vvv Drag and drop functions below vvv\n\n    def control_loop(self):\n        # === Movement Logic ===\n        if self.obstacle_in_front():\n            self.stop()                       # stop movement\n            self.turn_cw(self.turn_cw_deg)    # turn clockwise  ← edit\n        else:\n            self.move(self.forward_speed)     # drive forward  ← edit\n".data := by decide
    unfold generateSimpleCode
    rw [h0, h7]
    simp [List.append_assoc]
  rw [hsplit]
  rw [searchWith_skip_lit_num _ nameColour hdrA0.data (formatFixed2 P.forward_speed) _ tryMatchQuotedNE_fail
    (by decide) (by decide) (by decide) (formatFixed2_ne_nil _) (formatFixed2_headD _) (formatFixed2_all _) (by decide)]
  rw [searchWith_skip_lit_num _ nameColour hdrA1.data (formatFixed2 P.backward_speed) _ tryMatchQuotedNE_fail
    (by decide) (by decide) (by decide) (formatFixed2_ne_nil _) (formatFixed2_headD _) (formatFixed2_all _) (by decide)]
  rw [searchWith_skip_lit_num _ nameColour hdrA2.data (formatFixed2 P.turn_speed) _ tryMatchQuotedNE_fail
    (by decide) (by decide) (by decide) (formatFixed2_ne_nil _) (formatFixed2_headD _) (formatFixed2_all _) (by decide)]
  rw [searchWith_skip_lit_num _ nameColour hdrA3.data (formatFixed2 P.obstacle_distance) _ tryMatchQuotedNE_fail
    (by decide) (by decide) (by decide) (formatFixed2_ne_nil _) (formatFixed2_headD _) (formatFixed2_all _) (by decide)]
  rw [searchWith_skip_lit_num _ nameColour hdrA4.data (formatFixed1 P.turn_cw_deg) _ tryMatchQuotedNE_fail
    (by decide) (by decide) (by decide) (formatFixed1_ne_nil _) (formatFixed1_headD _) (formatFixed1_all _) (by decide)]
  rw [searchWith_skip_lit_num _ nameColour hdrA5.data (formatFixed1 P.turn_acw_deg) _ tryMatchQuotedNE_fail
    (by decide) (by decide) (by decide) (formatFixed1_ne_nil _) (formatFixed1_headD _) (formatFixed1_all _) (by decide)]
  rw [searchWith_skip_to_name _ nameColour _ _ tryMatchQuotedNE_fail (by decide)]
  rw [searchWith_head _ _ _ (tryMatchQuotedNE_at_head nameColour _ _ (colourText_ne_nil _) (colourText_no_quote _))]
  exact ⟨_, _, _, rfl⟩

/-- Extraction step for `forward_speed` on a rendered text recovers the
parameter exactly. -/
theorem extractNum_render_fwd (P : Params) (q : Nat)
    (h1 : 1 ≤ P.forward_speed) (h2 : P.forward_speed ≤ 200) :
    extractNum nameFwd 1 200 2 (generateSimpleCode P) q = .ok P.forward_speed := by
  obtain ⟨b, pfx, r, hs⟩ := searchRender_fwd P
  unfold extractNum
  rw [hs]
  dsimp only
  rw [parseFloatDD_formatFixed2]
  dsimp only
  rw [spinSetValue_exact _ _ _ _ h1 h2]

/-- Extraction step for `backward_speed` on a rendered text recovers the
parameter exactly. -/
theorem extractNum_render_bwd (P : Params) (q : Nat)
    (h1 : 1 ≤ P.backward_speed) (h2 : P.backward_speed ≤ 200) :
    extractNum nameBwd 1 200 2 (generateSimpleCode P) q = .ok P.backward_speed := by
  obtain ⟨b, pfx, r, hs⟩ := searchRender_bwd P
  unfold extractNum
  rw [hs]
  dsimp only
  rw [parseFloatDD_formatFixed2]
  dsimp only
  rw [spinSetValue_exact _ _ _ _ h1 h2]

/-- Extraction step for `turn_speed` on a rendered text recovers the
parameter exactly. -/
theorem extractNum_render_turn (P : Params) (q : Nat)
    (h1 : 10 ≤ P.turn_speed) (h2 : P.turn_speed ≤ 300) :
    extractNum nameTurn 10 300 2 (generateSimpleCode P) q = .ok P.turn_speed := by
  obtain ⟨b, pfx, r, hs⟩ := searchRender_turn P
  unfold extractNum
  rw [hs]
  dsimp only
  rw [parseFloatDD_formatFixed2]
  dsimp only
  rw [spinSetValue_exact _ _ _ _ h1 h2]

/-- Extraction step for `obstacle_distance` on a rendered text recovers the
parameter exactly. -/
theorem extractNum_render_obs (P : Params) (q : Nat)
    (h1 : 10 ≤ P.obstacle_distance) (h2 : P.obstacle_distance ≤ 200) :
    extractNum nameObs 10 200 2 (generateSimpleCode P) q = .ok P.obstacle_distance := by
  obtain ⟨b, pfx, r, hs⟩ := searchRender_obs P
  unfold extractNum
  rw [hs]
  dsimp only
  rw [parseFloatDD_formatFixed2]
  dsimp only
  rw [spinSetValue_exact _ _ _ _ h1 h2]

/-- Extraction step for `turn_cw_deg` on a rendered text recovers the
parameter exactly. -/
theorem extractNum_render_cw (P : Params) (q : Nat)
    (h1 : 0 ≤ P.turn_cw_deg) (h2 : P.turn_cw_deg ≤ 3600) :
    extractNum nameCw 0 3600 1 (generateSimpleCode P) q = .ok P.turn_cw_deg := by
  obtain ⟨b, pfx, r, hs⟩ := searchRender_cw P
  unfold extractNum
  rw [hs]
  dsimp only
  rw [parseFloatDD_formatFixed1]
  dsimp only
  rw [spinSetValue_exact _ _ _ _ h1 h2]

/-- Extraction step for `turn_acw_deg` on a rendered text recovers the
parameter exactly. -/
theorem extractNum_render_acw (P : Params) (q : Nat)
    (h1 : 0 ≤ P.turn_acw_deg) (h2 : P.turn_acw_deg ≤ 3600) :
    extractNum nameAcw 0 3600 1 (generateSimpleCode P) q = .ok P.turn_acw_deg := by
  obtain ⟨b, pfx, r, hs⟩ := searchRender_acw P
  unfold extractNum
  rw [hs]
  dsimp only
  rw [parseFloatDD_formatFixed1]
  dsimp only
  rw [spinSetValue_exact _ _ _ _ h1 h2]

/-- The colour extraction step on a rendered text recovers the colour
exactly (every rendered colour is in the accepted set). -/
theorem extractColour_render (P : Params) (c : Colour) :
    extractColour (generateSimpleCode P) c = P.colour_detection := by
  obtain ⟨b, pfx, r, hs⟩ := searchRender_colour P
  unfold extractColour
  rw [hs]
  dsimp only
  cases hP : P.colour_detection <;> rfl

/-- The splice leaves the artifact unchanged when either marker is
absent. -/
theorem writeSimpleLogicCode_eq_self {code : List Char} (logic : List Char)
    (h : containsSub msChars code = false ∨ containsSub meChars code = false) :
    writeSimpleLogicCode logic code = code := by
  unfold writeSimpleLogicCode
  cases h with
  | inl hms => rw [findSub_eq_none hms]
  | inr hme =>
    cases hf : findSub msChars code with
    | none => rfl
    | some p =>
      obtain ⟨b, r⟩ := p
      rw [findSub_eq_none hme]

/-! ### The in-place rewrite cannot touch the marker-delimited region -/

theorem applySub_none {s : SubSpec} {cs : List Char} (h : s.search cs = none) :
    applySub s cs = cs := by
  unfold applySub
  rw [h]

theorem append_split_of_le {x r H S : List Char} (h : x ++ r = H ++ S)
    (hle : x.length ≤ H.length) :
    ∃ r₁, H = x ++ r₁ ∧ r = r₁ ++ S := by
  rcases List.append_eq_append_iff.mp h with ⟨a, ha1, ha2⟩ | ⟨c, hc1, hc2⟩
  · exact ⟨a, ha1, ha2⟩
  · have hclen : c.length = 0 := by
      have := congrArg List.length hc1
      simp at this
      omega
    have hc : c = [] := List.length_eq_zero.mp hclen
    subst hc
    exact ⟨[], by simpa using hc1.symm, by simpa using hc2.symm⟩

/-- Replacing a span that lies before `r₁ ++ S` with a `NewSafe`
replacement cannot create an occurrence of `m` anywhere in the
(new) header region. -/
theorem inv_preserved {m : List Char} (hm : m ≠ []) (b old new r₁ S : List Char)
    (hnew : new ≠ [])
    (hh1 : ∀ ch ∈ m, ch ≠ new.headD 'x')
    (hh2 : ∀ ch ∈ new, ch ≠ m.headD 'x')
    (hInv : ∀ p < b.length + old.length + r₁.length,
        ¬ m <+: ((b ++ (old ++ (r₁ ++ S))).drop p)) :
    ∀ p < b.length + new.length + r₁.length,
        ¬ m <+: ((b ++ (new ++ (r₁ ++ S))).drop p) := by
  intro p hp hpre
  have hmpos : 0 < m.length := List.length_pos.mpr hm
  have hnpos : 0 < new.length := List.length_pos.mpr hnew
  by_cases h1 : p + m.length ≤ b.length
  · -- window entirely inside the untouched prefix b
    have hpb : p < b.length := by omega
    have hdrop : (b ++ (new ++ (r₁ ++ S))).drop p = b.drop p ++ (new ++ (r₁ ++ S)) := by
      rw [List.drop_append_eq_append_drop, Nat.sub_eq_zero_of_le (by omega), List.drop_zero]
    rw [hdrop] at hpre
    have hb : m <+: b.drop p := prefix_append_left (by simp; omega) hpre
    have hx : m <+: ((b ++ (old ++ (r₁ ++ S))).drop p) := by
      rw [show (b ++ (old ++ (r₁ ++ S))).drop p = b.drop p ++ (old ++ (r₁ ++ S)) from by
        rw [List.drop_append_eq_append_drop, Nat.sub_eq_zero_of_le (by omega), List.drop_zero]]
      exact hb.trans (List.prefix_append _ _)
    exact hInv p (by omega) hx
  · by_cases h2 : p < b.length + new.length
    · by_cases h3 : p ≤ b.length
      · -- window starts in b and overlaps the replacement: it contains
        -- the replacement's first character
        have hdrop : (b ++ (new ++ (r₁ ++ S))).drop p = b.drop p ++ (new ++ (r₁ ++ S)) := by
          rw [List.drop_append_eq_append_drop, Nat.sub_eq_zero_of_le (by omega), List.drop_zero]
        rw [hdrop] at hpre
        have hi : b.length - p < m.length := by omega
        have hget := hpre.getElem (n := b.length - p) hi
        rw [List.getElem_append_right (by simp)] at hget
        have hidx : b.length - p - (b.drop p).length = 0 := by simp
        simp only [hidx] at hget
        rw [List.getElem_append_left (by simpa using hnpos)] at hget
        rw [getElem_zero_eq_headD 'x' hnpos] at hget
        exact hh1 _ (List.getElem_mem hi) hget
      · -- window starts inside the replacement: its first character is
        -- a replacement character, which cannot equal m's head
        have hdrop : (b ++ (new ++ (r₁ ++ S))).drop p =
            new.drop (p - b.length) ++ (r₁ ++ S) := by
          rw [show b ++ (new ++ (r₁ ++ S)) = (b ++ new) ++ (r₁ ++ S) from by simp]
          rw [List.drop_append_eq_append_drop]
          rw [Nat.sub_eq_zero_of_le (le_of_lt (by simpa using h2)), List.drop_zero]
          rw [List.drop_append_eq_append_drop, List.drop_eq_nil_of_le (by omega),
            List.nil_append]
        rw [hdrop] at hpre
        have hlt : p - b.length < new.length := by omega
        have hdpos : 0 < (new.drop (p - b.length)).length := by simp; omega
        have hget := hpre.getElem (n := 0) hmpos
        rw [List.getElem_append_left hdpos] at hget
        have hz : (new.drop (p - b.length))[0] = new[p - b.length] := by
          simp [List.getElem_drop]
        rw [hz, getElem_zero_eq_headD 'x' hmpos] at hget
        exact hh2 _ (List.getElem_mem hlt) hget.symm
    · -- window entirely after the replacement: unchanged text
      have hdrop : (b ++ (new ++ (r₁ ++ S))).drop p =
          (r₁ ++ S).drop (p - b.length - new.length) := by
        rw [show b ++ (new ++ (r₁ ++ S)) = (b ++ new) ++ (r₁ ++ S) from by simp]
        rw [List.drop_append_eq_append_drop,
          List.drop_eq_nil_of_le (show (b ++ new).length ≤ p from by simp; omega),
          List.nil_append]
        rw [show p - (b ++ new).length = p - b.length - new.length from by
          simp [Nat.sub_sub]]
      have hdrop2 : (b ++ (old ++ (r₁ ++ S))).drop (p - new.length + old.length) =
          (r₁ ++ S).drop (p - b.length - new.length) := by
        rw [show b ++ (old ++ (r₁ ++ S)) = (b ++ old) ++ (r₁ ++ S) from by simp]
        rw [List.drop_append_eq_append_drop,
          List.drop_eq_nil_of_le (show (b ++ old).length ≤ p - new.length + old.length from by
            simp; omega),
          List.nil_append]
        rw [show p - new.length + old.length - (b ++ old).length =
            p - b.length - new.length from by simp [Nat.sub_sub]; omega]
      rw [hdrop, ← hdrop2] at hpre
      exact hInv (p - new.length + old.length) (by omega) hpre

/-- Under the canonical-header discipline and `NewSafe` replacements,
the substitution fold rewrites only the header: the suffix `S` (markers,
logic region and tail) survives byte-for-byte, and no occurrence of `m`
appears in the new header region. -/
theorem foldSubs_header (m : List Char) (hm : m ≠ []) :
    ∀ (ss : List SubSpec) (H S : List Char),
      (∀ s ∈ ss, NewSafe m s) →
      subsWithinHeader ss H.length (H ++ S) = true →
      (∀ p < H.length, ¬ m <+: ((H ++ S).drop p)) →
      ∃ H', ss.foldl (fun c s => applySub s c) (H ++ S) = H' ++ S ∧
        (∀ p < H'.length, ¬ m <+: ((H' ++ S).drop p)) := by
  intro ss
  induction ss with
  | nil =>
    intro H S _ _ hInv
    exact ⟨H, rfl, hInv⟩
  | cons s ss ih =>
    intro H S hsafe hwithin hInv
    simp only [List.foldl_cons]
    unfold subsWithinHeader at hwithin
    cases hsearch : s.search (H ++ S) with
    | none =>
      rw [hsearch] at hwithin
      rw [applySub_none hsearch]
      exact ih H S (fun t ht => hsafe t (by simp [ht])) hwithin hInv
    | some triple =>
      obtain ⟨b, old, r⟩ := triple
      rw [hsearch] at hwithin
      simp only [Bool.and_eq_true, decide_eq_true_eq] at hwithin
      obtain ⟨hle, hrec⟩ := hwithin
      obtain ⟨hdecomp, happ⟩ := search_decomp s (H ++ S) b old r hsearch
      have hx : (b ++ old) ++ r = H ++ S := by
        rw [← hdecomp]
      obtain ⟨r₁, hH, hr⟩ := append_split_of_le hx (by simp; omega)
      obtain ⟨hnew, hh1, hh2⟩ := hsafe s (by simp)
      have hInv' : ∀ p < b.length + old.length + r₁.length,
          ¬ m <+: ((b ++ (old ++ (r₁ ++ S))).drop p) := by
        intro p hp
        have he : b ++ (old ++ (r₁ ++ S)) = H ++ S := by
          rw [hH]
          simp
        rw [he]
        exact hInv p (by rw [hH]; simp; omega)
      have hInvNew := inv_preserved hm b old s.newVal r₁ S hnew hh1 hh2 hInv'
      have happ' : applySub s (H ++ S) = (b ++ (s.newVal ++ r₁)) ++ S := by
        rw [happ, hr]
        simp
      have hlen : (b ++ (s.newVal ++ r₁)).length = H.length - old.length + s.newVal.length := by
        rw [hH]
        simp
        omega
      have hrec' : subsWithinHeader ss (b ++ (s.newVal ++ r₁)).length
          ((b ++ (s.newVal ++ r₁)) ++ S) = true := by
        rw [hlen, ← happ']
        exact hrec
      have hInvNew' : ∀ p < (b ++ (s.newVal ++ r₁)).length,
          ¬ m <+: (((b ++ (s.newVal ++ r₁)) ++ S).drop p) := by
        intro p hp
        have he : (b ++ (s.newVal ++ r₁)) ++ S = b ++ (s.newVal ++ (r₁ ++ S)) := by simp
        rw [he]
        exact hInvNew p (by simp at hp ⊢; omega)
      obtain ⟨H', hfold, hInvF⟩ := ih (b ++ (s.newVal ++ r₁)) S
        (fun t ht => hsafe t (by simp [ht])) hrec' hInvNew'
      rw [happ']
      exact ⟨H', hfold, hInvF⟩

/-- `str.find` locates the structural occurrence when no earlier
occurrence exists. -/
theorem findSub_of_split {m b r : List Char}
    (h : ∀ p < b.length, ¬ m <+: ((b ++ (m ++ r)).drop p)) :
    findSub m (b ++ (m ++ r)) = some (b, r) := by
  unfold findSub
  rw [searchWith_skip _ b (m ++ r) (fun p hp => by
    rw [if_neg (fun hpre => h p hp (List.isPrefixOf_iff_prefix.mp hpre))])]
  have hhead : searchWith
      (fun t => if m.isPrefixOf t then some (t.drop m.length) else none) (m ++ r) =
      some ([], r) := by
    apply searchWith_head
    rw [if_pos (List.isPrefixOf_iff_prefix.mpr (List.prefix_append _ _)), List.drop_left]
  rw [hhead]
  simp

theorem isDigitDot_ne_space {c : Char} (h : isDigitDot c = true) : c ≠ ' ' := by
  intro he
  subst he
  exact absurd h (by decide)

theorem colourText_head_upper (c : Colour) : (c.text.headD 'x').isUpper = true := by
  cases c <;> decide

theorem colourText_no_space (c : Colour) : ∀ ch ∈ c.text, ch ≠ ' ' := by
  cases c <;> decide

theorem newSafe_num (m : List Char) (name v : List Char)
    (hv_ne : v ≠ []) (hv_head : (v.headD 'x').isDigit = true)
    (hv_all : v.all isDigitDot = true)
    (hnd : m.all (fun c => !c.isDigit) = true) (hhead : m.headD 'x' = ' ') :
    NewSafe m (SubSpec.num name v) := by
  unfold NewSafe SubSpec.newVal
  refine ⟨hv_ne, ?_, ?_⟩
  · intro ch hch he
    have hnc := List.all_eq_true.mp hnd ch hch
    rw [he, hv_head] at hnc
    exact absurd hnc (by decide)
  · intro ch hch
    rw [hhead]
    exact isDigitDot_ne_space (List.all_eq_true.mp hv_all ch hch)

theorem newSafe_quoted (m : List Char) (name : List Char) (c : Colour)
    (hnu : m.all (fun ch => !ch.isUpper) = true) (hhead : m.headD 'x' = ' ') :
    NewSafe m (SubSpec.quoted name c.text) := by
  unfold NewSafe SubSpec.newVal
  refine ⟨colourText_ne_nil c, ?_, ?_⟩
  · intro ch hch he
    have hnc := List.all_eq_true.mp hnu ch hch
    rw [he, colourText_head_upper c] at hnc
    exact absurd hnc (by decide)
  · intro ch hch
    rw [hhead]
    exact colourText_no_space c ch hch

/-- Every replacement of the program's substitution table is `NewSafe`
for any marker-like text without digits or capitals that starts with a
space. -/
theorem newSafe_subSpecs (P : Params) (m : List Char)
    (hnd : m.all (fun c => !c.isDigit) = true)
    (hnu : m.all (fun c => !c.isUpper) = true)
    (hhead : m.headD 'x' = ' ') :
    ∀ s ∈ subSpecs P, NewSafe m s := by
  intro s hs
  simp only [subSpecs, List.mem_cons, List.not_mem_nil, or_false] at hs
  rcases hs with rfl | rfl | rfl | rfl | rfl | rfl | rfl
  · exact newSafe_num m _ _ (formatFixed2_ne_nil _) (formatFixed2_headD _)
      (formatFixed2_all _) hnd hhead
  · exact newSafe_num m _ _ (formatFixed2_ne_nil _) (formatFixed2_headD _)
      (formatFixed2_all _) hnd hhead
  · exact newSafe_num m _ _ (formatFixed2_ne_nil _) (formatFixed2_headD _)
      (formatFixed2_all _) hnd hhead
  · exact newSafe_num m _ _ (formatFixed2_ne_nil _) (formatFixed2_headD _)
      (formatFixed2_all _) hnd hhead
  · exact newSafe_num m _ _ (formatFixed1_ne_nil _) (formatFixed1_headD _)
      (formatFixed1_all _) hnd hhead
  · exact newSafe_num m _ _ (formatFixed1_ne_nil _) (formatFixed1_headD _)
      (formatFixed1_all _) hnd hhead
  · exact newSafe_quoted m _ _ hnu hhead

/-- The splice on an artifact whose markers are first occurrences:
the region between the markers becomes the editor logic followed by a
newline. -/
theorem splice_split (X H1 M T : List Char)
    (hms1 : ∀ p < H1.length,
        ¬ msChars <+: ((H1 ++ (msChars ++ (M ++ (meChars ++ T)))).drop p))
    (hme1 : ∀ p < H1.length,
        ¬ meChars <+: ((H1 ++ (msChars ++ (M ++ (meChars ++ T)))).drop p))
    (hMme : ∀ p < (msChars ++ M).length,
        ¬ meChars <+: ((msChars ++ (M ++ (meChars ++ T))).drop p)) :
    writeSimpleLogicCode X (H1 ++ (msChars ++ (M ++ (meChars ++ T)))) =
      H1 ++ (msChars ++ ((X ++ ['\n']) ++ (meChars ++ T))) := by
  unfold writeSimpleLogicCode
  have hfind1 : findSub msChars
      (H1 ++ (msChars ++ (M ++ (meChars ++ T)))) =
      some (H1, M ++ (meChars ++ T)) :=
    findSub_of_split hms1
  have hfind2 : findSub meChars
      (H1 ++ (msChars ++ (M ++ (meChars ++ T)))) =
      some (H1 ++ (msChars ++ M), T) := by
    have he : H1 ++ (msChars ++ (M ++ (meChars ++ T))) =
        (H1 ++ (msChars ++ M)) ++ (meChars ++ T) := by simp
    rw [he]
    apply findSub_of_split
    intro p hp hpre
    rw [← he] at hpre
    by_cases hcase : p < H1.length
    · exact hme1 p hcase hpre
    · have hdrop : (H1 ++ (msChars ++ (M ++ (meChars ++ T)))).drop p =
          (msChars ++ (M ++ (meChars ++ T))).drop (p - H1.length) := by
        rw [List.drop_append_eq_append_drop, List.drop_eq_nil_of_le (by omega),
          List.nil_append]
      rw [hdrop] at hpre
      apply hMme (p - H1.length) ?_ hpre
      simp only [List.length_append] at hp ⊢
      omega
  rw [hfind1]
  dsimp only
  rw [hfind2]
  dsimp only
  simp

/-- The reconciliation result on a well-formed artifact, under the
canonical-header discipline: the parameter rewrite stays in the header
and the splice replaces the marker-delimited region with the editor's
logic. -/
theorem reconcile_split (P : Params) (E H M T X : List Char)
    (hsafe : subsWithinHeader (subSpecs P) H.length
        (H ++ (msChars ++ (M ++ (meChars ++ T)))) = true)
    (hms : ∀ p < H.length,
        ¬ msChars <+: ((H ++ (msChars ++ (M ++ (meChars ++ T)))).drop p))
    (hme : ∀ p < H.length,
        ¬ meChars <+: ((H ++ (msChars ++ (M ++ (meChars ++ T)))).drop p))
    (hMme : ∀ p < (msChars ++ M).length,
        ¬ meChars <+: ((msChars ++ (M ++ (meChars ++ T))).drop p))
    (hE : extractSimpleViewLogic E = some X) :
    ∃ H', writeParams P (H ++ (msChars ++ (M ++ (meChars ++ T)))) =
        H' ++ (msChars ++ (M ++ (meChars ++ T))) ∧
      reconcileDisk P E (H ++ (msChars ++ (M ++ (meChars ++ T)))) =
        H' ++ (msChars ++ ((X ++ ['\n']) ++ (meChars ++ T))) := by
  obtain ⟨H1, hfold1, hInvMs⟩ :=
    foldSubs_header msChars (by decide) (subSpecs P) H
      (msChars ++ (M ++ (meChars ++ T)))
      (newSafe_subSpecs P msChars (by decide) (by decide) (by decide)) hsafe hms
  obtain ⟨H2, hfold2, hInvMe⟩ :=
    foldSubs_header meChars (by decide) (subSpecs P) H
      (msChars ++ (M ++ (meChars ++ T)))
      (newSafe_subSpecs P meChars (by decide) (by decide) (by decide)) hsafe hme
  have hH12 : H1 = H2 := by
    have := hfold1.symm.trans hfold2
    exact List.append_cancel_right this
  subst hH12
  have hWP : writeParams P (H ++ (msChars ++ (M ++ (meChars ++ T)))) =
      H1 ++ (msChars ++ (M ++ (meChars ++ T))) := hfold1
  refine ⟨H1, hWP, ?_⟩
  unfold reconcileDisk writeSimpleLogicFromEditor
  rw [hE, hWP]
  exact splice_split X H1 M T hInvMs hInvMe hMme

/-! ### The load path on a well-formed artifact -/

theorem tryMarkers_fail {cs : List Char} (h : ¬ msChars <+: cs) : tryMarkers cs = none := by
  unfold tryMarkers
  rw [if_neg (fun hp => h (List.isPrefixOf_iff_prefix.mp hp))]

/-- The load regex on an artifact whose start marker is a first
occurrence and whose region contains no end marker: the captured group
is the region, right-stripped of newlines. -/
theorem extractSavedLogic_of_split {H2 W T : List Char}
    (hms : ∀ p < H2.length,
        ¬ msChars <+: ((H2 ++ (msChars ++ (W ++ (meChars ++ T)))).drop p))
    (hWme : ∀ p < W.length, ¬ meChars <+: ((W ++ (meChars ++ T)).drop p)) :
    extractSavedLogic (H2 ++ (msChars ++ (W ++ (meChars ++ T)))) = some (rstripNl W) := by
  unfold extractSavedLogic
  rw [searchWith_skip _ H2 (msChars ++ (W ++ (meChars ++ T)))
    (fun p hp => tryMarkers_fail (hms p hp))]
  have hhead : tryMarkers (msChars ++ (W ++ (meChars ++ T))) = some W := by
    unfold tryMarkers
    rw [if_pos (List.isPrefixOf_iff_prefix.mpr (List.prefix_append _ _)), List.drop_left]
    rw [findSub_of_split hWme]
    rfl
  rw [searchWith_head _ _ _ hhead]
  rfl

theorem rstripNl_append_newline (X : List Char) : rstripNl (X ++ ['\n']) = rstripNl X := by
  unfold rstripNl
  rw [List.reverse_append]
  rfl

theorem joinLines_append_singleton (ls : List (List Char)) (x : List Char) (h : ls ≠ []) :
    joinLines (ls ++ [x]) = joinLines ls ++ '\n' :: x := by
  induction ls with
  | nil => exact absurd rfl h
  | cons a ls ih =>
    cases ls with
    | nil => rfl
    | cons b ls' =>
      show joinLines (a :: ((b :: ls') ++ [x])) = joinLines (a :: b :: ls') ++ '\n' :: x
      rw [show joinLines (a :: ((b :: ls') ++ [x])) =
          a ++ '\n' :: joinLines ((b :: ls') ++ [x]) from rfl]
      rw [ih (by simp)]
      rw [show joinLines (a :: b :: ls') = a ++ '\n' :: joinLines (b :: ls') from rfl]
      simp

theorem containsSub_append_left {m A : List Char} (B : List Char)
    (h : containsSub m A = true) : containsSub m (A ++ B) = true := by
  unfold containsSub at h ⊢
  rw [List.any_eq_true] at h ⊢
  obtain ⟨p, hp, hpre⟩ := h
  refine ⟨p, by simp [List.mem_range] at hp ⊢; omega, ?_⟩
  have hle : p ≤ A.length := by simp [List.mem_range] at hp; omega
  rw [List.drop_append_eq_append_drop, Nat.sub_eq_zero_of_le hle, List.drop_zero]
  exact (List.isPrefixOf_iff_prefix.mpr
    ((List.isPrefixOf_iff_prefix.mp hpre).trans (List.prefix_append _ _)))

theorem isBlankText_false_of_mem {cs : List Char} {c : Char} (hc : c ∈ cs)
    (hns : isSpaceChar c = false) : isBlankText cs = false := by
  unfold isBlankText
  rw [Bool.eq_false_iff]
  intro hall
  rw [List.all_eq_true] at hall
  have := hall c hc
  rw [hns] at this
  exact absurd this (by decide)

/-! ## Claims -/

/-- C2: when a parameter's assignment pattern matches (first in the
header, possibly again later), the in-place substitution
(`re.sub(..., count=1)` of `_sync_simple_view_from_spinboxes` /
`_write_params_to_movement_py`) rewrites only the leftmost matched
value span: the text before it and the entire text after it — in
particular every later occurrence of the same identifier — is left
character-for-character unchanged. -/
theorem c2_single_occurrence_replace (s : SubSpec) (t b v r : List Char)
    (h : s.search t = some (b, v, r)) :
    applySub s t = b ++ s.newVal ++ r ∧ t = b ++ v ++ r :=
  ⟨(search_decomp s t b v r h).2, (search_decomp s t b v r h).1⟩

/-- C2 witness: a document with `self.forward_speed = 0.10` in the
header and again in the logic; updating the parameter to 0.40 changes
only the first occurrence and the later occurrence survives verbatim. -/
theorem c2_single_occurrence_replace_witness :
    applySub (SubSpec.num nameFwd (formatFixed2 40))
        ("        self.forward_speed = 0.10   # x\n        logic: self.forward_speed = 0.10\n".data) =
      "        self.forward_speed = ".data ++ formatFixed2 40 ++
        "   # x\n        logic: self.forward_speed = 0.10\n".data ∧
    containsSub "self.forward_speed = 0.10".data
      "   # x\n        logic: self.forward_speed = 0.10\n".data = true :=
  ⟨(c2_single_occurrence_replace (SubSpec.num nameFwd (formatFixed2 40)) _
      ("        self.forward_speed = ".data) ("0.10".data)
      ("   # x\n        logic: self.forward_speed = 0.10\n".data) (by decide)).1,
   by decide⟩

/-- C1 (amended): for every ParameterSet and every well-formed artifact
whose markers delimit the logic region `L ++ '\n'` — first marker
occurrences, in-place rewrites confined to the header (the
canonical-header discipline checked by `subsWithinHeader`) — and an
editor whose extracted logic is `L`, reconciliation (parameter rewrite
followed by logic splice) never alters the logic region: the marker
block `msChars ++ (L ++ '\n') ++ meChars ++ T` survives byte-for-byte,
whatever the parameter values, so any assignment literal inside `L`
keeps its exact text. -/
theorem c1_no_clobber (P : Params) (E H L T : List Char)
    (hsafe : subsWithinHeader (subSpecs P) H.length
        (H ++ (msChars ++ ((L ++ ['\n']) ++ (meChars ++ T)))) = true)
    (hms : ∀ p < H.length,
        ¬ msChars <+: ((H ++ (msChars ++ ((L ++ ['\n']) ++ (meChars ++ T)))).drop p))
    (hme : ∀ p < H.length,
        ¬ meChars <+: ((H ++ (msChars ++ ((L ++ ['\n']) ++ (meChars ++ T)))).drop p))
    (hLme : ∀ p < (msChars ++ (L ++ ['\n'])).length,
        ¬ meChars <+: ((msChars ++ ((L ++ ['\n']) ++ (meChars ++ T))).drop p))
    (hE : extractSimpleViewLogic E = some L) :
    ∃ H', reconcileDisk P E (H ++ (msChars ++ ((L ++ ['\n']) ++ (meChars ++ T)))) =
      H' ++ (msChars ++ ((L ++ ['\n']) ++ (meChars ++ T))) :=
  (reconcile_split P E H (L ++ ['\n']) T L hsafe hms hme hLme hE).imp (fun _ h => h.2)

set_option maxRecDepth 400000 in
/-- C1 witness: a canonical artifact (all assignments in the header, a
`self.move` call in the logic); reconciliation with different parameter
values keeps the whole marker block intact. -/
theorem c1_no_clobber_witness :
    ∃ H', reconcileDisk ⟨40, 25, 100, 50, 900, 900, .Green⟩
        ("x\n        # === Movement Logic ===\n        self.move(self.forward_speed)".data)
        ("        self.forward_speed = 0.10\n        self.backward_speed = 0.20\n        self.turn_speed = 1.00\n        self.obstacle_distance = 0.50\n        self.turn_cw_deg = 90.0\n        self.turn_acw_deg = 90.0\n        self.colour_detection = \"Red\"\n".data ++
          (msChars ++ (("        self.move(self.forward_speed)".data ++ ['\n']) ++
            (meChars ++ "\n".data)))) =
      H' ++ (msChars ++ (("        self.move(self.forward_speed)".data ++ ['\n']) ++
        (meChars ++ "\n".data))) :=
  c1_no_clobber ⟨40, 25, 100, 50, 900, 900, .Green⟩
    ("x\n        # === Movement Logic ===\n        self.move(self.forward_speed)".data)
    ("        self.forward_speed = 0.10\n        self.backward_speed = 0.20\n        self.turn_speed = 1.00\n        self.obstacle_distance = 0.50\n        self.turn_cw_deg = 90.0\n        self.turn_acw_deg = 90.0\n        self.colour_detection = \"Red\"\n".data)
    ("        self.move(self.forward_speed)".data) ("\n".data)
    (by decide) (by decide) (by decide) (by decide) (by decide)

set_option maxRecDepth 400000 in
/-- C1 counterexample: the claim as stated quantifies over *every*
artifact whose markers delimit a region.  For this artifact the colour
pattern's quoted span straddles the start marker and the forward-speed
pattern's first match lies inside the logic region; the parameter
rewrite destroys the marker (skipping the splice) and rewrites the
`0.10` literal inside the region to `0.40`. -/
theorem c1_clobber_counterexample :
    containsSub "self.forward_speed = 0.10".data
      ("        self.colour_detection = \"x\n".data ++ msChars ++
        "q\" self.forward_speed = 0.10\n".data ++ meChars ++ "\n".data) = true ∧
    extractSimpleViewLogic
      "head\n        # === Movement Logic ===\nq\" self.forward_speed = 0.10".data =
      some "q\" self.forward_speed = 0.10".data ∧
    containsSub "self.forward_speed = 0.10".data
      (reconcileDisk ⟨40, 25, 100, 50, 900, 900, .Red⟩
        "head\n        # === Movement Logic ===\nq\" self.forward_speed = 0.10".data
        ("        self.colour_detection = \"x\n".data ++ msChars ++
          "q\" self.forward_speed = 0.10\n".data ++ meChars ++ "\n".data)) = false := by
  refine ⟨by decide, by decide, by decide⟩

/-- C5 (amended): when both markers are found (as first occurrences,
under the canonical-header discipline), the reconciled artifact's text
up to the start marker equals the corresponding portion of the
*in-place parameter rewrite* of the prior text — a substitution of the
prior header, not the fresh generator render — and the region between
the markers is the spliced editor logic. -/
theorem c5_replace_is_in_place_rewrite (P : Params) (E H L T : List Char)
    (hsafe : subsWithinHeader (subSpecs P) H.length
        (H ++ (msChars ++ ((L ++ ['\n']) ++ (meChars ++ T)))) = true)
    (hms : ∀ p < H.length,
        ¬ msChars <+: ((H ++ (msChars ++ ((L ++ ['\n']) ++ (meChars ++ T)))).drop p))
    (hme : ∀ p < H.length,
        ¬ meChars <+: ((H ++ (msChars ++ ((L ++ ['\n']) ++ (meChars ++ T)))).drop p))
    (hLme : ∀ p < (msChars ++ (L ++ ['\n'])).length,
        ¬ meChars <+: ((msChars ++ ((L ++ ['\n']) ++ (meChars ++ T))).drop p))
    (hE : extractSimpleViewLogic E = some L) :
    ∃ H', writeParams P (H ++ (msChars ++ ((L ++ ['\n']) ++ (meChars ++ T)))) =
        H' ++ (msChars ++ ((L ++ ['\n']) ++ (meChars ++ T))) ∧
      reconcileDisk P E (H ++ (msChars ++ ((L ++ ['\n']) ++ (meChars ++ T)))) =
        H' ++ (msChars ++ ((L ++ ['\n']) ++ (meChars ++ T))) :=
  reconcile_split P E H (L ++ ['\n']) T L hsafe hms hme hLme hE

set_option maxRecDepth 400000 in
/-- C5 witness: same canonical artifact as the C1 witness; the
reconciled header is the substituted prior header. -/
theorem c5_replace_is_in_place_rewrite_witness :
    ∃ H', writeParams ⟨40, 25, 100, 50, 900, 900, .Green⟩
        ("        self.forward_speed = 0.10\n        self.backward_speed = 0.20\n        self.turn_speed = 1.00\n        self.obstacle_distance = 0.50\n        self.turn_cw_deg = 90.0\n        self.turn_acw_deg = 90.0\n        self.colour_detection = \"Red\"\n".data ++
          (msChars ++ (("pass".data ++ ['\n']) ++ (meChars ++ "\n".data)))) =
        H' ++ (msChars ++ (("pass".data ++ ['\n']) ++ (meChars ++ "\n".data))) ∧
      reconcileDisk ⟨40, 25, 100, 50, 900, 900, .Green⟩
        ("x\n        # === Movement Logic ===\npass".data)
        ("        self.forward_speed = 0.10\n        self.backward_speed = 0.20\n        self.turn_speed = 1.00\n        self.obstacle_distance = 0.50\n        self.turn_cw_deg = 90.0\n        self.turn_acw_deg = 90.0\n        self.colour_detection = \"Red\"\n".data ++
          (msChars ++ (("pass".data ++ ['\n']) ++ (meChars ++ "\n".data)))) =
        H' ++ (msChars ++ (("pass".data ++ ['\n']) ++ (meChars ++ "\n".data))) :=
  c5_replace_is_in_place_rewrite ⟨40, 25, 100, 50, 900, 900, .Green⟩
    ("x\n        # === Movement Logic ===\npass".data)
    ("        self.forward_speed = 0.10\n        self.backward_speed = 0.20\n        self.turn_speed = 1.00\n        self.obstacle_distance = 0.50\n        self.turn_cw_deg = 90.0\n        self.turn_acw_deg = 90.0\n        self.colour_detection = \"Red\"\n".data)
    ("pass".data) ("\n".data)
    (by decide) (by decide) (by decide) (by decide) (by decide)

set_option maxRecDepth 400000 in
/-- C5 counterexample: an artifact with a custom header line; after
reconciliation the text before the start marker still begins with the
custom line, while the generator's render begins differently — the
header is not replaced by the fresh render. -/
theorem c5_header_not_fresh_render :
    (reconcileDisk ⟨40, 25, 100, 50, 900, 900, .Green⟩
        "x\n        # === Movement Logic ===\npass".data
        ("# my custom header\n        self.forward_speed = 0.10\n".data ++ msChars ++
          "pass\n".data ++ meChars ++ "\n".data)).take 18 =
      "# my custom header".data ∧
    (generateSimpleCode ⟨40, 25, 100, 50, 900, 900, .Green⟩).take 18 =
      "from codebotair im".data ∧
    "# my custom header".data ≠ "from codebotair im".data := by
  refine ⟨by decide, by decide, by decide⟩

/-- C4: render→extract→render is idempotent.  For every in-range
`ParameterSet P` and any prior spinbox state `Q`, extracting from the
rendered text recovers exactly `P` (with no error), so rendering the
extracted parameters is byte-identical to the first render. -/
theorem c4_render_extract_render (P : Params) (hP : P.inRange) (Q : Params) :
    onSimpleCodeChangedCore (generateSimpleCode P) Q = (P, false) ∧
    generateSimpleCode (onSimpleCodeChangedCore (generateSimpleCode P) Q).1 =
      generateSimpleCode P := by
  obtain ⟨hf1, hf2, hb1, hb2, ht1, ht2, ho1, ho2, hcw, hacw⟩ := hP
  have hcore : onSimpleCodeChangedCore (generateSimpleCode P) Q = (P, false) := by
    unfold onSimpleCodeChangedCore
    rw [extractNum_render_fwd P _ hf1 hf2]
    dsimp only
    rw [extractNum_render_bwd P _ hb1 hb2]
    dsimp only
    rw [extractNum_render_turn P _ ht1 ht2]
    dsimp only
    rw [extractNum_render_obs P _ ho1 ho2]
    dsimp only
    rw [extractNum_render_cw P _ (Nat.zero_le _) hcw]
    dsimp only
    rw [extractNum_render_acw P _ (Nat.zero_le _) hacw]
    dsimp only
    rw [extractColour_render P _]
  exact ⟨hcore, by rw [hcore]⟩

/-- C4 witness: a concrete in-range parameter set is recovered exactly
from its render, starting from a different prior state. -/
theorem c4_render_extract_render_witness :
    onSimpleCodeChangedCore
        (generateSimpleCode ⟨30, 25, 100, 50, 900, 900, .Red⟩)
        ⟨1, 1, 10, 10, 0, 0, .Green⟩ =
      (⟨30, 25, 100, 50, 900, 900, .Red⟩, false) ∧
    generateSimpleCode
        (onSimpleCodeChangedCore
          (generateSimpleCode ⟨30, 25, 100, 50, 900, 900, .Red⟩)
          ⟨1, 1, 10, 10, 0, 0, .Green⟩).1 =
      generateSimpleCode ⟨30, 25, 100, 50, 900, 900, .Red⟩ :=
  c4_render_extract_render ⟨30, 25, 100, 50, 900, 900, .Red⟩ (by decide)
    ⟨1, 1, 10, 10, 0, 0, .Green⟩

/-- C7 (amended): an insertion (drop) at target line `t` is rejected
exactly when the sentinel line `b` (first line containing
`def control_loop`) exists and `t ≤ b`; when no line contains the
sentinel, every insertion is allowed (not rejected as the claim
states). -/
theorem c7_boundary_enforcement (text : List Char) (t : Nat) :
    (∀ b, logicStartLine text = some b → (isInsertionAllowed text t = false ↔ t ≤ b)) ∧
    (logicStartLine text = none → isInsertionAllowed text t = true) := by
  constructor
  · intro b hb
    simp only [isInsertionAllowed, hb, decide_eq_false_iff_not, not_lt]
  · intro hb
    simp only [isInsertionAllowed, hb]

/-- C7 witness: with the sentinel on line 10, a drop at line 5 is
rejected and a drop at line 12 is committed. -/
theorem c7_boundary_enforcement_witness :
    isInsertionAllowed
        "0\n1\n2\n3\n4\n5\n6\n7\n8\n9\ndef control_loop(self):\n        pass\n".data 5 = false ∧
    ¬ isInsertionAllowed
        "0\n1\n2\n3\n4\n5\n6\n7\n8\n9\ndef control_loop(self):\n        pass\n".data 12 = false :=
  ⟨((c7_boundary_enforcement _ 5).1 10 (by decide)).mpr (by decide),
   fun h => absurd (((c7_boundary_enforcement _ 12).1 10 (by decide)).mp h) (by decide)⟩

/-- C7 counterexample: the claim states that with no sentinel line
every insertion is rejected; in the code `dropEvent` falls through to
the default handler when `_logic_start_line()` is `None`, so the
insertion is committed. -/
theorem c7_no_sentinel_allows :
    logicStartLine "hello\nworld\n".data = none ∧
    isInsertionAllowed "hello\nworld\n".data 0 = true := by
  constructor
  · decide
  · decide

/-- C8: evaluating the extraction handler on a text whose
`forward_speed` value `1.2.3` matches the pattern but is not a valid
`float`: the handler aborts with a `ValueError` (second component
`true`) and the parseable `backward_speed = 9.99` later in the text is
never processed — the prior parameters are returned unchanged, contrary
to the claim that only the malformed parameter is skipped. -/
theorem c8_unparseable_aborts_extraction :
    onSimpleCodeChangedCore
        "        self.forward_speed = 1.2.3\n        self.backward_speed = 9.99\n".data
        ⟨30, 25, 100, 50, 900, 900, .Red⟩ =
      (⟨30, 25, 100, 50, 900, 900, .Red⟩, true) := by
  decide

/-- C10: each of the three operations that set the `_syncing` reentrancy
flag (`_on_simple_code_changed`, `_sync_simple_view_from_spinboxes`,
`_load_simple_view_from_movement_py`) leaves the flag `False` on
return — including when the extraction body raises (the `Bool`
component of `onSimpleCodeChanged` records an escaped exception; the
`finally` clause still clears the flag). -/
theorem c10_syncing_always_reset (st : AppState) (h : st.syncing = false) :
    (onSimpleCodeChanged st).1.syncing = false ∧
    (syncSimpleViewFromSpinboxes st).1.syncing = false ∧
    (loadSimpleViewOp st).1.syncing = false := by
  refine ⟨?_, ?_, ?_⟩
  · unfold onSimpleCodeChanged
    rw [h]
    simp
  · unfold syncSimpleViewFromSpinboxes
    rw [h]
    by_cases hb : isBlankText st.simpleText <;> simp [hb]
  · unfold loadSimpleViewOp
    cases st.artifact with
    | none =>
      by_cases hb : isBlankText st.simpleText <;> simp [hb, h]
    | some code => simp

/-- C9: when the Simple View text has no `# === Movement Logic ===`
separator line, or only blank lines after it, `_extract_simple_view_logic`
returns `None` and `_write_simple_logic_to_movement_py` leaves the
artifact byte-for-byte unchanged, so logic stored between the on-disk
markers is never erased by an emptied structured view. -/
theorem c9_empty_logic_preserves_artifact (text code : List Char) :
    ((∀ l ∈ splitLines text, containsSub sepChars l = false) →
        extractSimpleViewLogic text = none) ∧
    (∀ i, (splitLines text).findIdx? (fun l => containsSub sepChars l) = some i →
        (∀ l ∈ (splitLines text).drop (i + 1), isBlankLine l = true) →
        extractSimpleViewLogic text = none) ∧
    (extractSimpleViewLogic text = none →
        writeSimpleLogicFromEditor text code = code) := by
  refine ⟨?_, ?_, ?_⟩
  · intro h
    unfold extractSimpleViewLogic
    dsimp only
    rw [List.findIdx?_eq_none_iff.mpr (by intro l hl; simp [h l hl])]
  · intro i hi hblank
    unfold extractSimpleViewLogic
    dsimp only
    rw [hi]
    have hnil : dropTrailingBlank ((splitLines text).drop (i + 1)) = [] := by
      unfold dropTrailingBlank
      rw [List.dropWhile_eq_nil_iff.mpr
        (fun l hl => hblank l (List.mem_reverse.mp hl))]
      rfl
    simp [hnil]
  · intro h
    unfold writeSimpleLogicFromEditor
    rw [h]

/-- C9 witness: a Simple View whose logic region is only blank lines;
the artifact with stored logic `L` between the markers is untouched. -/
theorem c9_empty_logic_preserves_artifact_witness :
    writeSimpleLogicFromEditor
        "x\n        # === Movement Logic ===\n   \n\n".data
        ("H\n".data ++ msChars ++ "L\n".data ++ meChars ++ "\nT\n".data) =
      "H\n".data ++ msChars ++ "L\n".data ++ meChars ++ "\nT\n".data :=
  (c9_empty_logic_preserves_artifact
      "x\n        # === Movement Logic ===\n   \n\n".data
      ("H\n".data ++ msChars ++ "L\n".data ++ meChars ++ "\nT\n".data)).2.2
    ((c9_empty_logic_preserves_artifact
        "x\n        # === Movement Logic ===\n   \n\n".data
        ("H\n".data ++ msChars ++ "L\n".data ++ meChars ++ "\nT\n".data)).2.1
      1 (by decide) (by decide))

/-- C3 counterexample: for a prior artifact without markers the
reconciliation (parameter rewrite + logic splice) does not produce the
generator's default render — it returns the prior text with in-place
substitutions (here: unchanged), for any editor content. -/
theorem c3_reconcile_without_markers_not_render :
    reconcileDisk ⟨30, 25, 100, 50, 900, 900, .Red⟩
        "x\n        # === Movement Logic ===\nfoo".data "hello\n".data =
      "hello\n".data ∧
    "hello\n".data ≠ generateSimpleCode ⟨30, 25, 100, 50, 900, 900, .Red⟩ := by
  constructor
  · decide
  · decide

/-- C3 (amended): when either marker is missing from the artifact, the
artifact-write path performs no splice — `reconcile` returns just the
in-place parameter rewrite of the prior text, not the default render;
it is the load-into-structured-view path that falls back to exactly the
generator's full default render. -/
theorem c3_marker_fallback (P : Params) (E code : List Char)
    (h1 : containsSub msChars code = false ∨ containsSub meChars code = false)
    (h2 : containsSub msChars (writeParams P code) = false ∨
          containsSub meChars (writeParams P code) = false) :
    reconcileDisk P E code = writeParams P code ∧
    loadSimpleViewText P code = generateSimpleCode P := by
  constructor
  · unfold reconcileDisk writeSimpleLogicFromEditor
    cases hx : extractSimpleViewLogic E with
    | none => rfl
    | some logic => exact writeSimpleLogicCode_eq_self logic h2
  · unfold loadSimpleViewText
    rw [extractSavedLogic_eq_none h1]

/-- C3 witness: a marker-less artifact `hello` with an editor holding
real logic: reconciliation returns the substituted prior text and the
load path returns the default render. -/
theorem c3_marker_fallback_witness :
    reconcileDisk ⟨40, 25, 100, 50, 900, 900, .Green⟩
        "x\n        # === Movement Logic ===\nfoo".data "hello\n".data =
      writeParams ⟨40, 25, 100, 50, 900, 900, .Green⟩ "hello\n".data ∧
    loadSimpleViewText ⟨40, 25, 100, 50, 900, 900, .Green⟩ "hello\n".data =
      generateSimpleCode ⟨40, 25, 100, 50, 900, 900, .Green⟩ :=
  c3_marker_fallback ⟨40, 25, 100, 50, 900, 900, .Green⟩
    "x\n        # === Movement Logic ===\nfoo".data "hello\n".data
    (by decide) (by decide)

/-- C10 witness: a state whose Simple View text makes the extraction
body raise (`1.2.3`); the handler's exception escapes, yet the flag is
reset. -/
theorem c10_syncing_always_reset_witness :
    (onSimpleCodeChanged
        ⟨⟨30, 25, 100, 50, 900, 900, .Red⟩,
         "        self.forward_speed = 1.2.3\n".data, none, [], false, 0, false⟩).2 = true ∧
    (onSimpleCodeChanged
        ⟨⟨30, 25, 100, 50, 900, 900, .Red⟩,
         "        self.forward_speed = 1.2.3\n".data, none, [], false, 0, false⟩).1.syncing = false :=
  ⟨by decide,
   (c10_syncing_always_reset
      ⟨⟨30, 25, 100, 50, 900, 900, .Red⟩,
       "        self.forward_speed = 1.2.3\n".data, none, [], false, 0, false⟩ rfl).1⟩

/-! ### C6: round trip through both views -/

set_option maxRecDepth 400000 in
/-- C6: starting in the Simple View with `forward_speed = 0.30` and
custom logic `X` under the separator, with the persisted artifact
present and well formed (both markers present as first occurrences, the
parameter rewrites confined to the header on both passes), switching to
the Full View and back rebuilds the Simple View text as the fresh
generator header (18 lines, up to and including the separator line)
followed by exactly `X`; the rebuilt text still contains
`self.forward_speed = 0.30` and the spinbox parameters are unchanged. -/
theorem c6_round_trip (E F H M T X H1 H2 : List Char)
    (hE : extractSimpleViewLogic E = some X)
    (hXnl : rstripNl X = X)
    (hWP1 : writeParams ⟨30, 25, 100, 50, 900, 900, .Red⟩
        (H ++ (msChars ++ (M ++ (meChars ++ T)))) =
      H1 ++ (msChars ++ (M ++ (meChars ++ T))))
    (hms1 : ∀ p < H1.length,
        ¬ msChars <+: ((H1 ++ (msChars ++ (M ++ (meChars ++ T)))).drop p))
    (hme1 : ∀ p < H1.length,
        ¬ meChars <+: ((H1 ++ (msChars ++ (M ++ (meChars ++ T)))).drop p))
    (hMme : ∀ p < (msChars ++ M).length,
        ¬ meChars <+: ((msChars ++ (M ++ (meChars ++ T))).drop p))
    (hWP2 : writeParams ⟨30, 25, 100, 50, 900, 900, .Red⟩
        (H1 ++ (msChars ++ ((X ++ ['\n']) ++ (meChars ++ T)))) =
      H2 ++ (msChars ++ ((X ++ ['\n']) ++ (meChars ++ T))))
    (hms2 : ∀ p < H2.length,
        ¬ msChars <+: ((H2 ++ (msChars ++ ((X ++ ['\n']) ++ (meChars ++ T)))).drop p))
    (hXme : ∀ p < (X ++ ['\n']).length,
        ¬ meChars <+: (((X ++ ['\n']) ++ (meChars ++ T)).drop p)) :
    (showSimpleView (showFullView
        ⟨⟨30, 25, 100, 50, 900, 900, .Red⟩, E,
          some (H ++ (msChars ++ (M ++ (meChars ++ T)))), F, true, 0, false⟩)).simpleText =
      joinLines ((splitLines
          (generateSimpleCode ⟨30, 25, 100, 50, 900, 900, .Red⟩)).take 18) ++
        '\n' :: (X ++ ['\n']) ∧
    containsSub "self.forward_speed = 0.30".data
      (showSimpleView (showFullView
        ⟨⟨30, 25, 100, 50, 900, 900, .Red⟩, E,
          some (H ++ (msChars ++ (M ++ (meChars ++ T)))), F, true, 0, false⟩)).simpleText
      = true ∧
    (showSimpleView (showFullView
        ⟨⟨30, 25, 100, 50, 900, 900, .Red⟩, E,
          some (H ++ (msChars ++ (M ++ (meChars ++ T)))), F, true, 0, false⟩)).params =
      ⟨30, 25, 100, 50, 900, 900, .Red⟩ := by
  have hrec : reconcileDisk ⟨30, 25, 100, 50, 900, 900, .Red⟩ E
      (H ++ (msChars ++ (M ++ (meChars ++ T)))) =
      H1 ++ (msChars ++ ((X ++ ['\n']) ++ (meChars ++ T))) := by
    unfold reconcileDisk writeSimpleLogicFromEditor
    rw [hE, hWP1]
    exact splice_split X H1 M T hms1 hme1 hMme
  have hmem : ('#' : Char) ∈ H1 ++ (msChars ++ ((X ++ ['\n']) ++ (meChars ++ T))) :=
    List.mem_append.mpr (Or.inr (List.mem_append.mpr (Or.inl (by decide))))
  have hblank : isBlankText (H1 ++ (msChars ++ ((X ++ ['\n']) ++ (meChars ++ T)))) = false :=
    isBlankText_false_of_mem hmem (by decide)
  have hsync : syncFullFromSpin ⟨30, 25, 100, 50, 900, 900, .Red⟩
      (H1 ++ (msChars ++ ((X ++ ['\n']) ++ (meChars ++ T)))) =
      H2 ++ (msChars ++ ((X ++ ['\n']) ++ (meChars ++ T))) := by
    unfold syncFullFromSpin
    rw [hblank]
    rw [if_neg (by decide : ¬ (false = true))]
    exact hWP2
  have hstate : showSimpleView (showFullView
      (⟨⟨30, 25, 100, 50, 900, 900, .Red⟩, E,
        some (H ++ (msChars ++ (M ++ (meChars ++ T)))), F, true, 0, false⟩ : AppState)) =
      ⟨⟨30, 25, 100, 50, 900, 900, .Red⟩,
        loadSimpleViewText ⟨30, 25, 100, 50, 900, 900, .Red⟩
          (H2 ++ (msChars ++ ((X ++ ['\n']) ++ (meChars ++ T)))),
        some (H2 ++ (msChars ++ ((X ++ ['\n']) ++ (meChars ++ T)))),
        H2 ++ (msChars ++ ((X ++ ['\n']) ++ (meChars ++ T))), true, 0, false⟩ := by
    have h1 : showFullView
        (⟨⟨30, 25, 100, 50, 900, 900, .Red⟩, E,
          some (H ++ (msChars ++ (M ++ (meChars ++ T)))), F, true, 0, false⟩ : AppState) =
        ⟨⟨30, 25, 100, 50, 900, 900, .Red⟩, E,
          some (reconcileDisk ⟨30, 25, 100, 50, 900, 900, .Red⟩ E
            (H ++ (msChars ++ (M ++ (meChars ++ T))))),
          syncFullFromSpin ⟨30, 25, 100, 50, 900, 900, .Red⟩
            (reconcileDisk ⟨30, 25, 100, 50, 900, 900, .Red⟩ E
              (H ++ (msChars ++ (M ++ (meChars ++ T))))),
          true, 1, false⟩ := rfl
    rw [h1, hrec, hsync]
    rfl
  have hload : extractSavedLogic (H2 ++ (msChars ++ ((X ++ ['\n']) ++ (meChars ++ T)))) =
      some X := by
    rw [extractSavedLogic_of_split hms2 hXme, rstripNl_append_newline, hXnl]
  have hsep : (splitLines (generateSimpleCode
      (⟨30, 25, 100, 50, 900, 900, .Red⟩ : Params))).findIdx?
      (fun l => containsSub sepChars l) = some 17 := by decide
  have hrebuild : loadRebuild ⟨30, 25, 100, 50, 900, 900, .Red⟩ X =
      joinLines ((splitLines
          (generateSimpleCode ⟨30, 25, 100, 50, 900, 900, .Red⟩)).take 18) ++
        '\n' :: (X ++ ['\n']) := by
    unfold loadRebuild
    dsimp only
    rw [hsep]
    show joinLines ((splitLines
        (generateSimpleCode ⟨30, 25, 100, 50, 900, 900, .Red⟩)).take (17 + 1) ++ [X]) ++
        ['\n'] = _
    rw [joinLines_append_singleton _ X (by decide), List.append_assoc]
    rfl
  have htext : loadSimpleViewText ⟨30, 25, 100, 50, 900, 900, .Red⟩
      (H2 ++ (msChars ++ ((X ++ ['\n']) ++ (meChars ++ T)))) =
      joinLines ((splitLines
          (generateSimpleCode ⟨30, 25, 100, 50, 900, 900, .Red⟩)).take 18) ++
        '\n' :: (X ++ ['\n']) := by
    unfold loadSimpleViewText
    rw [hload]
    exact hrebuild
  refine ⟨?_, ?_, ?_⟩
  · rw [hstate]
    exact htext
  · rw [hstate]
    show containsSub "self.forward_speed = 0.30".data
        (loadSimpleViewText ⟨30, 25, 100, 50, 900, 900, .Red⟩
          (H2 ++ (msChars ++ ((X ++ ['\n']) ++ (meChars ++ T))))) = true
    rw [htext]
    exact containsSub_append_left _ (by decide)
  · rw [hstate]

set_option maxRecDepth 400000 in
theorem c6_round_trip_witness :
    (showSimpleView (showFullView
        ⟨⟨30, 25, 100, 50, 900, 900, .Red⟩,
          "# === Movement Logic ===\n        self.stop()".data,
          some ([] ++ (msChars ++ ("        pass".data ++ (meChars ++ [])))),
          [], true, 0, false⟩)).simpleText =
      joinLines ((splitLines
          (generateSimpleCode ⟨30, 25, 100, 50, 900, 900, .Red⟩)).take 18) ++
        '\n' :: ("        self.stop()".data ++ ['\n']) ∧
    containsSub "self.forward_speed = 0.30".data
      (showSimpleView (showFullView
        ⟨⟨30, 25, 100, 50, 900, 900, .Red⟩,
          "# === Movement Logic ===\n        self.stop()".data,
          some ([] ++ (msChars ++ ("        pass".data ++ (meChars ++ [])))),
          [], true, 0, false⟩)).simpleText = true ∧
    (showSimpleView (showFullView
        ⟨⟨30, 25, 100, 50, 900, 900, .Red⟩,
          "# === Movement Logic ===\n        self.stop()".data,
          some ([] ++ (msChars ++ ("        pass".data ++ (meChars ++ [])))),
          [], true, 0, false⟩)).params = ⟨30, 25, 100, 50, 900, 900, .Red⟩ :=
  c6_round_trip
    "# === Movement Logic ===\n        self.stop()".data [] []
    "        pass".data [] "        self.stop()".data [] []
    (by decide) rfl (by decide) (by decide) (by decide) (by decide)
    (by decide) (by decide) (by decide)

end Codebotair
